import Mathlib

/-!
# MueLu::Amesos2Smoother

A shallow embedding of `packages/muelu/src/Smoothers/MueLu_Amesos2Smoother_def.hpp`:
the constructor (backend selection), `Setup` (with the nullspace fix), `Apply`,
`Copy` and `getNodeSmootherComplexity`, followed by theorems about them.

Conventions of the embedding.
* A `std::string` is a `List Char`.
* `size_t` values are `Nat`, with arithmetic modulo `2 ^ 64`; a local ordinal `LO` and a
  global ordinal `GO` are `Int`, with `-1` the invalid ordinal.
* A C++ exception is a value of `Exception`; an operation that can throw returns the
  state it leaves behind together with the exception, if any.
* The collaborators that are not part of the file (the Amesos2 library, the 2-norm of
  a vector, the importer, the scalar division) are the fields of `Externals`.
-/

namespace MueLu

/-! ## Strings -/

/-- The C function `tolower` in the "C" locale, on one character. -/
def tolower (c : Char) : Char := c.toLower

/-- The C function `toupper` in the "C" locale, on one character. -/
def toupper (c : Char) : Char := c.toUpper

/-- Lines 70-74: `std::transform` over the whole string with `tolower`, then over
the range `[begin, ++begin)` with `toupper`; nothing is done to an empty string. -/
def toAbcde (type : List Char) : List Char :=
  if type ≠ [] then
    match type.map tolower with
    | [] => []
    | c :: cs => toupper c :: cs
  else type

/-- Lines 70-76: the value of `type_` when the availability test of line 81 is reached. -/
def normalizeType (type : List Char) : List Char :=
  let type_ := toAbcde type
  if type_ = "Superlu_dist".toList then "Superludist".toList else type_

/-! ## Constructor -/

/-- The preprocessor symbols tested by lines 83-96. -/
structure Amesos2Config where
  HAVE_AMESOS2_SUPERLU : Bool
  HAVE_AMESOS2_KLU2 : Bool
  HAVE_AMESOS2_SUPERLUDIST : Bool
  HAVE_AMESOS2_BASKER : Bool
  deriving DecidableEq, Repr

/-- The verbosity classes of the messages the smoother writes. -/
inductive MsgType where
  | Warnings0
  | Runtime1
  deriving DecidableEq, Repr

/-- One line written to `GetOStream(cls)`. -/
structure Message where
  cls : MsgType
  text : List Char
  deriving DecidableEq, Repr

/-- The `#if / #elif` chain of lines 83-96: the name assigned to `type_`, or `none`
on the `#else` branch. -/
def defaultType (cfg : Amesos2Config) : Option (List Char) :=
  if cfg.HAVE_AMESOS2_SUPERLU then some "Superlu".toList
  else if cfg.HAVE_AMESOS2_KLU2 then some "Klu".toList
  else if cfg.HAVE_AMESOS2_SUPERLUDIST then some "Superludist".toList
  else if cfg.HAVE_AMESOS2_BASKER then some "Basker".toList
  else none

/-- The text of line 92-94. -/
def noSolverMessage : List Char :=
  ("Amesos2 has been compiled without SuperLU_DIST, SuperLU, Klu, or Basker. By default, MueLu tries" ++
   "to use one of these libraries. Amesos2 must be compiled with one of these solvers, " ++
   "or a valid Amesos2 solver has to be specified explicitly.").toList

/-- The text of line 104-105. -/
def notAvailableMessage (type_ : List Char) : List Char :=
  "The Amesos2 library reported that the solver '".toList ++ type_ ++ "' is not available. ".toList ++
  "Amesos2 has been compiled without the support of this solver, or the solver name is misspelled.".toList

/-- What the constructor leaves behind: the member `type_`, the member
`useTransformation_`, the lines written to the output streams, and the two arguments of
the one call of `declareConstructionOutcome` made on the path taken. -/
structure Constructed where
  type_ : List Char
  useTransformation_ : Bool
  log : List Message
  outcomeFailed : Bool
  outcomeMessage : List Char
  deriving DecidableEq, Repr

/-- Lines 66-106, the constructor. `query` is `Amesos2::query`. -/
def construct (query : List Char → Bool) (cfg : Amesos2Config) (type : List Char) : Constructed :=
  let type_ := normalizeType type
  if type_ = [] || query type_ == false then
    let oldtype := type_
    match defaultType cfg with
    | none =>
      { type_ := type_, useTransformation_ := false, log := [],
        outcomeFailed := true, outcomeMessage := noSolverMessage }
    | some type_ =>
      let msg : Message :=
        if oldtype ≠ [] then
          ⟨MsgType.Warnings0, "MueLu::Amesos2Smoother: \"".toList ++ oldtype ++
            "\" is not available. Using \"".toList ++ type_ ++ "\" instead".toList⟩
        else
          ⟨MsgType.Runtime1, "MueLu::Amesos2Smoother: using \"".toList ++ type_ ++ "\"".toList⟩
      { type_ := type_, useTransformation_ := false, log := [msg],
        outcomeFailed := query type_ == false, outcomeMessage := notAvailableMessage type_ }
  else
    { type_ := type_, useTransformation_ := false, log := [],
      outcomeFailed := query type_ == false, outcomeMessage := notAvailableMessage type_ }

/-! ## Machine arithmetic, arrays, loops -/

/-- The number of values of a `size_t`. -/
def SIZE_MOD : Nat := 2 ^ 64

/-- Product of two `size_t`. -/
def szMul (a b : Nat) : Nat := (a * b) % SIZE_MOD

/-- Sum of two `size_t`. -/
def szAdd (a b : Nat) : Nat := (a + b) % SIZE_MOD

/-- Conversion of a signed ordinal to `size_t` (as in `i*M+j` with `j` an `LO`). -/
def szOfInt (j : Int) : Nat := (j % (SIZE_MOD : Int)).toNat

/-- The exceptions of the embedding. `RangeError` stands for an access outside an array
and `NullReferenceError` for the dereference of a null `RCP`. -/
inductive Exception where
  | RuntimeError (msg : List Char)
  | RangeError
  | NullReferenceError
  | InvalidParameterType
  deriving DecidableEq, Repr

/-- Read `a[i]`. -/
def readAt {α : Type} (a : List α) (i : Nat) : Except Exception α :=
  match a[i]? with
  | some x => .ok x
  | none => .error .RangeError

/-- The assignment `a[i] = x`. -/
def writeAt {α : Type} (a : List α) (i : Nat) (x : α) : Except Exception (List α) :=
  if i < a.length then .ok (a.set i x) else .error .RangeError

/-- The loop `for (size_t i = lo; i < lo + count; i++) body`, stopped by the first
exception. -/
def forLoop {σ : Type} (body : Nat → σ → Except Exception σ) : Nat → Nat → σ → Except Exception σ
  | 0, _, s => .ok s
  | k + 1, i, s =>
    match body i s with
    | .ok s' => forLoop body k (i + 1) s'
    | .error e => .error e

/-! ## Maps, matrices, vectors -/

/-- What one process sees of an `Xpetra::Map`: its own global indices in local order,
and the quantities that are global to the communicator. -/
structure Map where
  gids : List Int
  globalNumElements : Nat
  commSize : Nat
  minAllGlobalIndex : Int
  maxAllGlobalIndex : Int
  deriving DecidableEq, Repr

/-- `getLocalNumElements`. -/
def Map.getLocalNumElements (m : Map) : Nat := m.gids.length

/-- `getGlobalElement`: the global index of a local one, invalid (`-1`) outside the map. -/
def Map.getGlobalElement (m : Map) (l : Int) : Int :=
  if 0 ≤ l then m.gids.getD l.toNat (-1) else -1

/-- `getLocalElement`: the local index of a global one, invalid (`-1`) when the process
does not own it. -/
def Map.getLocalElement (m : Map) (g : Int) : Int :=
  if g ∈ m.gids then (m.gids.indexOf g : Int) else -1

/-- What one process sees of an `Xpetra::Matrix`: its maps, whether the dynamic cast to
`CrsMatrixWrap` succeeds, the three arrays of `getAllValues`, and the importer and
exporter of its graph (source and target map). -/
structure Matrix (K : Type) where
  rowMap : Map
  colMap : Map
  domainMap : Map
  rangeMap : Map
  isCrs : Bool
  rowPointers : List Nat
  colIndices : List Int
  values : List K
  importer : Option (Map × Map)
  exporter : Option (Map × Map)
  deriving DecidableEq, Repr

/-- What one process sees of an `Xpetra::MultiVector`: the local length and the local
data of each column. -/
structure MultiVector (K : Type) where
  localLength : Nat
  cols : List (List K)
  deriving DecidableEq, Repr

/-- `getNumVectors`. -/
def MultiVector.getNumVectors {K : Type} (v : MultiVector K) : Nat := v.cols.length

/-- `getData(j)` and `getDataNonConst(j)`. -/
def MultiVector.getData {K : Type} (v : MultiVector K) (j : Nat) : Except Exception (List K) :=
  readAt v.cols j

/-- Store the data of column `j` back. -/
def MultiVector.setData {K : Type} (v : MultiVector K) (j : Nat) (d : List K) : MultiVector K :=
  { v with cols := v.cols.set j d }

/-! ## Parameter lists -/

/-- The value of a parameter. -/
inductive ParameterValue where
  | bool (b : Bool)
  | int (i : Int)
  | string (s : List Char)
  deriving DecidableEq, Repr

/-- An entry of the "Amesos2" list: a value or a sublist of values. -/
inductive ParameterEntry where
  | value (v : ParameterValue)
  | list (entries : List (List Char × ParameterValue))
  deriving DecidableEq, Repr

/-- The "Amesos2" sublist: its name and its entries in order. -/
structure Amesos2List where
  name : List Char
  entries : List (List Char × ParameterEntry)
  deriving DecidableEq, Repr

/-- The parameters of the smoother that `Setup` reads. -/
structure ParameterList where
  fixNullspace : Bool
  Amesos2 : Amesos2List
  deriving DecidableEq, Repr

/-- `set(name, v)` on a list of values: replace the entry of that name or append one. -/
def setValue (l : List (List Char × ParameterValue)) (name : List Char) (v : ParameterValue) :
    List (List Char × ParameterValue) :=
  if l.any (fun e => e.1 == name) then l.map (fun e => if e.1 == name then (name, v) else e)
  else l ++ [(name, v)]

/-- `isType<bool>(name)` on a list of values. -/
def isTypeBool (l : List (List Char × ParameterValue)) (name : List Char) : Bool :=
  match l.find? (fun e => e.1 == name) with
  | some (_, .bool _) => true
  | _ => false

/-- `sublist(name)`: the sublist of that name, created empty at the end when there is no
entry of that name; an entry of that name that is not a list is an error. -/
def Amesos2List.sublist (p : Amesos2List) (name : List Char) :
    Except Exception (Amesos2List × List (List Char × ParameterValue)) :=
  match p.entries.find? (fun e => e.1 == name) with
  | some (_, .list l) => .ok (p, l)
  | some (_, .value _) => .error .InvalidParameterType
  | none => .ok ({ p with entries := p.entries ++ [(name, .list [])] }, [])

/-- Write a sublist back under its name. -/
def Amesos2List.putSublist (p : Amesos2List) (name : List Char)
    (l : List (List Char × ParameterValue)) : Amesos2List :=
  { p with entries := p.entries.map (fun e => if e.1 == name then (name, .list l) else e) }

/-! ## Collaborators -/

/-- The collaborators of the smoother. `H` is the type of an Amesos2 solver object.
* `query`, `create` (`none` for a null result), `solverName` (`name()`), `setParameters`,
  `solve` (the contents of `X` after `solve()` on the pair set by `setX`, `setB`) and
  `getNnzLU` (`getStatus().getNnzLU()`) are Amesos2;
* `norm2` is `Vector::norm2`, `doImport` is `MultiVector::doImport` through the importer
  from the first map to the second;
* `conjugate` is `ScalarTraits::conjugate`, `divide` is the division of the scalar type,
  a total operation. -/
structure Externals (K H : Type) where
  query : List Char → Bool
  create : List Char → Matrix K → Option H
  solverName : H → List Char
  setParameters : H → Amesos2List → H
  solve : H → MultiVector K → MultiVector K → MultiVector K
  getNnzLU : H → Nat
  norm2 : List K → K
  doImport : Map → Map → MultiVector K → MultiVector K
  conjugate : K → K
  divide : K → K → K
  Op2NonConstTpetraCrs : Matrix K → Except Exception (Matrix K)

/-- The data `Setup` gets from the level: "A" and "Nullspace". -/
structure Level (K : Type) where
  A : Matrix K
  Nullspace : MultiVector K
  deriving DecidableEq, Repr

/-! ## The smoother -/

/-- The members of `Amesos2Smoother`: `type_`, `prec_` (an `RCP`, `none` when null),
`useTransformation_`, `X_`, `B_` (`RCP`s), the parameter list, and the flag behind
`SmootherPrototype::IsSetup`. -/
structure Amesos2Smoother (K H : Type) where
  type_ : List Char
  prec_ : Option H
  useTransformation_ : Bool
  X_ : Option (MultiVector K)
  B_ : Option (MultiVector K)
  paramList : ParameterList
  isSetup : Bool
  deriving DecidableEq, Repr

/-- The object the constructor builds: `type_` and `useTransformation_` as computed by
lines 66-106, the parameter list of line 68, null `RCP`s, and `IsSetup() == false`. -/
def Amesos2Smoother.new {K H : Type} (ext : Externals K H) (cfg : Amesos2Config)
    (type : List Char) (paramList : ParameterList) : Amesos2Smoother K H :=
  let c := construct ext.query cfg type
  { type_ := c.type_, prec_ := none, useTransformation_ := c.useTransformation_,
    X_ := none, B_ := none, paramList := paramList, isSetup := false }

/-! ## Setup: the nullspace fix -/

/-- The three arrays `newRowPointers`, `newColIndices`, `newValues`. -/
structure NewArrays (K : Type) where
  newRowPointers : List Nat
  newColIndices : List Int
  newValues : List K
  deriving DecidableEq, Repr

/-- Lines 212-213, the body of the loop over `j`. -/
def formInner {K H : Type} [Field K] (ext : Externals K H) (M : Nat) (normalization : K)
    (nullspace nullspaceImp : List K) (i j : Nat) (a : NewArrays K) :
    Except Exception (NewArrays K) :=
  match writeAt a.newColIndices (szAdd (szMul i M) j) (j : Int) with
  | .error e => .error e
  | .ok ci =>
    match readAt nullspace i, readAt nullspaceImp j with
    | .ok ni, .ok nj =>
      match writeAt a.newValues (szAdd (szMul i M) j) (normalization * ni * ext.conjugate nj) with
      | .error e => .error e
      | .ok v => .ok { a with newColIndices := ci, newValues := v }
    | .error e, _ => .error e
    | _, .error e => .error e

/-- Lines 210-214, the body of the loop over `i` that forms `nullspace * nullspace^T`. -/
def formOuter {K H : Type} [Field K] (ext : Externals K H) (M : Nat) (normalization : K)
    (nullspace nullspaceImp : List K) (i : Nat) (a : NewArrays K) :
    Except Exception (NewArrays K) :=
  match writeAt a.newRowPointers i (szMul i M) with
  | .error e => .error e
  | .ok rp =>
    forLoop (formInner ext M normalization nullspace nullspaceImp i) M 0
      { a with newRowPointers := rp }

/-- Lines 221-223, the body of the loop over `jj`. -/
def addInner {K : Type} [Field K] (A : Matrix K) (colMap : Map) (M : Nat) (i jj : Nat)
    (newValues : List K) : Except Exception (List K) :=
  match readAt A.colIndices jj, readAt A.values jj with
  | .ok c, .ok v =>
    let j : Int := colMap.getLocalElement (A.colMap.getGlobalElement c)
    let idx := szAdd (szMul i M) (szOfInt j)
    match readAt newValues idx with
    | .error e => .error e
    | .ok old => writeAt newValues idx (old + v)
  | .error e, _ => .error e
  | _, .error e => .error e

/-- Lines 220-224, the body of the loop over `i` that adds `A`. -/
def addOuter {K : Type} [Field K] (A : Matrix K) (colMap : Map) (M : Nat) (i : Nat)
    (newValues : List K) : Except Exception (List K) :=
  match readAt A.rowPointers i, readAt A.rowPointers (szAdd i 1) with
  | .ok lo, .ok hi => forLoop (addInner A colMap M i) (hi - lo) lo newValues
  | .error e, _ => .error e
  | _, .error e => .error e

/-- Lines 175-235: from the operator, the nullspace, the imported nullspace, the column
map and the importer to the corrected operator `newA`. -/
def buildNewA {K H : Type} [Field K] (ext : Externals K H) (A : Matrix K)
    (Nullspace NullspaceImp : MultiVector K) (colMap : Map) (importer : Option (Map × Map)) :
    Except Exception (Matrix K) :=
  let rowMap := A.rowMap
  let M := rowMap.globalNumElements
  if A.isCrs = false then
    .error (.RuntimeError ("MueLu::Amesos2Smoother::Setup Fixing nullspace for coarse matrix for " ++
      "Amesos2 when matrix is not a Crs matrix has not been implemented yet.").toList)
  else
    let N := rowMap.getLocalNumElements
    let a0 : NewArrays K :=
      { newRowPointers := List.replicate (szAdd N 1) 0,
        newColIndices := List.replicate (szMul N M) 0,
        newValues := List.replicate (szMul N M) 0 }
    match Nullspace.getData 0, NullspaceImp.getData 0 with
    | .ok nullspace, .ok nullspaceImp =>
      let normalization := ext.norm2 nullspace
      let normalization := ext.divide 1 (normalization * normalization)
      match forLoop (formOuter ext M normalization nullspace nullspaceImp) N 0 a0 with
      | .error e => .error e
      | .ok a1 =>
        match writeAt a1.newRowPointers N (szMul N M) with
        | .error e => .error e
        | .ok rp =>
          match forLoop (addOuter A colMap M) N 0 a1.newValues with
          | .error e => .error e
          | .ok vals =>
            .ok { rowMap := rowMap, colMap := colMap, domainMap := A.domainMap,
                  rangeMap := A.rangeMap, isCrs := true, rowPointers := rp,
                  colIndices := a1.newColIndices, values := vals,
                  importer := importer, exporter := A.exporter }
    | .error e, _ => .error e
    | _, .error e => .error e

/-- Line 154. -/
def multiNullspaceMessage : List Char :=
  ("MueLu::Amesos2Smoother::Setup Fixing nullspace for coarse matrix for Amesos2 for " ++
   "nullspace of dim > 1 has not been implemented yet.").toList

/-- Lines 146-235, the branch of "fix nullspace": the lines written and the corrected
operator, or the exception. -/
def fixNullspace {K H : Type} [Field K] (ext : Externals K H) (A : Matrix K)
    (Nullspace : MultiVector K) : List Message × Except Exception (Matrix K) :=
  let log0 : List Message :=
    [⟨MsgType.Runtime1, "MueLu::Amesos2Smoother::Setup(): fixing nullspace".toList⟩]
  let rowMap := A.rowMap
  let M := rowMap.globalNumElements
  if Nullspace.getNumVectors > 1 then
    (log0, .error (.RuntimeError multiNullspaceMessage))
  else if rowMap.commSize > 1 then
    let colMap : Map :=
      { gids := (List.range M).map (fun k => (k : Int)),
        globalNumElements := szMul M rowMap.commSize,
        commSize := rowMap.commSize,
        minAllGlobalIndex := 0,
        maxAllGlobalIndex := (M : Int) - 1 }
    let NullspaceImp := ext.doImport rowMap colMap Nullspace
    (log0 ++ [⟨MsgType.Warnings0, ("MueLu::Amesos2Smoother::Setup(): Applying nullspace fix on " ++
        "distributed matrix. Try rebalancing to single rank!").toList⟩],
      buildNewA ext A Nullspace NullspaceImp colMap (some (rowMap, colMap)))
  else
    (log0, buildNewA ext A Nullspace Nullspace rowMap none)

/-! ## Setup -/

/-- Lines 244-249: the list handed to `setParameters`. -/
def amesos2Parameters {K H : Type} (ext : Externals K H) (rowMap : Map) (prec : H)
    (pL : ParameterList) : Except Exception Amesos2List :=
  let amesos2_params : Amesos2List := { pL.Amesos2 with name := "Amesos2".toList }
  if rowMap.globalNumElements ≠
      szOfInt ((rowMap.maxAllGlobalIndex - rowMap.minAllGlobalIndex) + 1) then
    match amesos2_params.sublist (ext.solverName prec) with
    | .error e => .error e
    | .ok (p, l) =>
      if !(isTypeBool l "IsContiguous".toList) then
        .ok (p.putSublist (ext.solverName prec)
          (setValue l "IsContiguous".toList (.bool false)))
      else .ok p
  else .ok amesos2_params

/-- What a call of `Setup` leaves behind: the smoother, the lines written, and the
exception that ended the call, if any. -/
structure SetupResult (K H : Type) where
  smoother : Amesos2Smoother K H
  log : List Message
  error : Option Exception

/-- Line 137. -/
def alreadyCalledWarning : Message :=
  ⟨MsgType.Warnings0, "MueLu::Amesos2Smoother::Setup(): Setup() has already been called".toList⟩

/-- Lines 133-253, `Setup`. -/
def Setup {K H : Type} [Field K] (ext : Externals K H) (s : Amesos2Smoother K H)
    (currentLevel : Level K) : SetupResult K H :=
  let log0 : List Message := if s.isSetup = true then [alreadyCalledWarning] else []
  let A := currentLevel.A
  let rowMap := A.rowMap
  let pL := s.paramList
  let fixed : List Message × Except Exception (Matrix K) :=
    if pL.fixNullspace then fixNullspace ext A currentLevel.Nullspace else ([], .ok A)
  let log := log0 ++ fixed.1
  match fixed.2 with
  | .error e => { smoother := s, log := log, error := some e }
  | .ok factorA =>
    match ext.Op2NonConstTpetraCrs factorA with
    | .error e => { smoother := s, log := log, error := some e }
    | .ok tA =>
      match ext.create s.type_ tA with
      | none =>
        { smoother := { s with prec_ := none }, log := log,
          error := some (.RuntimeError "Amesos2::create returns Teuchos::null".toList) }
      | some prec =>
        match amesos2Parameters ext rowMap prec pL with
        | .error e => { smoother := { s with prec_ := some prec }, log := log, error := some e }
        | .ok amesos2_params =>
          { smoother := { s with prec_ := some (ext.setParameters prec amesos2_params),
                                 isSetup := true },
            log := log, error := none }

/-! ## Apply, Copy, getNodeSmootherComplexity -/

/-- What a call of `Apply` leaves behind: the caller's `X`, the smoother (whose `X_` and
`B_` point to vectors the call may write), the calls of `solve()` made on the solver, each
with the solver and the pair of vectors set by `setX` and `setB`, and the exception that
ended the call, if any. -/
structure ApplyResult (K H : Type) where
  X : MultiVector K
  smoother : Amesos2Smoother K H
  solves : List (H × MultiVector K × MultiVector K)
  error : Option Exception

/-- Line 257. -/
def notSetupMessage : List Char :=
  "MueLu::Amesos2Smoother::Apply(): Setup() has not been called".toList

/-- Lines 273-276: the loop that copies `X` and `B` into the private vectors. -/
def copyIn {K : Type} (Xdata Bdata : List K) (i : Nat) (d : List K × List K) :
    Except Exception (List K × List K) :=
  match readAt Xdata i, readAt Bdata i with
  | .ok x, .ok b =>
    match writeAt d.1 i x, writeAt d.2 i b with
    | .ok X_data, .ok B_data => .ok (X_data, B_data)
    | .error e, _ => .error e
    | _, .error e => .error e
  | .error e, _ => .error e
  | _, .error e => .error e

/-- Lines 297-298: the loop that copies the private solution into `X`. -/
def copyOut {K : Type} (X_data : List K) (i : Nat) (Xdata : List K) :
    Except Exception (List K) :=
  match readAt X_data i with
  | .ok x => writeAt Xdata i x
  | .error e => .error e

/-- Lines 264-279 and 291-298, the branch of `Apply` taken when `useTransformation_` is
set: copy into the private vectors, solve on them, copy the solution back. -/
def applyTransformed {K H : Type} (ext : Externals K H) (s : Amesos2Smoother K H)
    (X B : MultiVector K) : ApplyResult K H :=
  let numVectors := X.getNumVectors
  let length := X.localLength
  if numVectors > 1 then
    { X := X, smoother := s, solves := [],
      error := some (.RuntimeError ("MueLu::Amesos2Smoother::Apply: Fixing coarse matrix for " ++
        "Amesos2 for multivectors has not been implemented yet.").toList) }
  else
    match X.getData 0 with
    | .error e => { X := X, smoother := s, solves := [], error := some e }
    | .ok Xdata =>
    match B.getData 0 with
    | .error e => { X := X, smoother := s, solves := [], error := some e }
    | .ok Bdata =>
    match s.X_ with
    | none => { X := X, smoother := s, solves := [], error := some .NullReferenceError }
    | some X_ =>
    match X_.getData 0 with
    | .error e => { X := X, smoother := s, solves := [], error := some e }
    | .ok X_data =>
    match s.B_ with
    | none => { X := X, smoother := s, solves := [], error := some .NullReferenceError }
    | some B_ =>
    match B_.getData 0 with
    | .error e => { X := X, smoother := s, solves := [], error := some e }
    | .ok B_data =>
    match forLoop (copyIn Xdata Bdata) length 0 (X_data, B_data) with
    | .error e => { X := X, smoother := s, solves := [], error := some e }
    | .ok (X_data, B_data) =>
    let X_ := X_.setData 0 X_data
    let B_ := B_.setData 0 B_data
    match s.prec_ with
    | none =>
      { X := X, smoother := { s with X_ := some X_, B_ := some B_ }, solves := [],
        error := some .NullReferenceError }
    | some prec =>
    let solved := ext.solve prec X_ B_
    let s' := { s with X_ := some solved, B_ := some B_ }
    match solved.getData 0 with
    | .error e => { X := X, smoother := s', solves := [(prec, X_, B_)], error := some e }
    | .ok X_data =>
    match forLoop (copyOut X_data) length 0 Xdata with
    | .error e => { X := X, smoother := s', solves := [(prec, X_, B_)], error := some e }
    | .ok Xdata =>
      { X := X.setData 0 Xdata, smoother := s', solves := [(prec, X_, B_)], error := none }

/-- Lines 256-300, `Apply`. The Tpetra vectors handed to the solver are views of the
vectors they are made from. -/
def Apply {K H : Type} (ext : Externals K H) (s : Amesos2Smoother K H)
    (X B : MultiVector K) : ApplyResult K H :=
  if s.isSetup = false then
    { X := X, smoother := s, solves := [], error := some (.RuntimeError notSetupMessage) }
  else if s.useTransformation_ = false then
    match s.prec_ with
    | none => { X := X, smoother := s, solves := [], error := some .NullReferenceError }
    | some prec =>
      { X := ext.solve prec X B, smoother := s, solves := [(prec, X, B)], error := none }
  else applyTransformed ext s X B

/-- Lines 302-308, `Copy`: the copy constructor, a member-wise copy (an `RCP` member of
the copy points to the object the original points to). -/
def Copy {K H : Type} (s : Amesos2Smoother K H) : Amesos2Smoother K H :=
  { type_ := s.type_, prec_ := s.prec_, useTransformation_ := s.useTransformation_,
    X_ := s.X_, B_ := s.B_, paramList := s.paramList, isSetup := s.isSetup }

/-- Lines 348-355, `getNodeSmootherComplexity`. -/
def getNodeSmootherComplexity {K H : Type} (ext : Externals K H) (s : Amesos2Smoother K H) : Nat :=
  match s.prec_ with
  | some prec => ext.getNnzLU prec
  | none => 0

/-! ## Definitions that follow the wording of the specification -/

/-- The preference order of the fallback, as names. -/
def preferenceChain : List (List Char) :=
  ["Superlu".toList, "Klu".toList, "Superludist".toList, "Basker".toList]

/-- Whether the backend of that name is compiled in. -/
def compiledIn (cfg : Amesos2Config) (name : List Char) : Bool :=
  (name = "Superlu".toList && cfg.HAVE_AMESOS2_SUPERLU) ||
  (name = "Klu".toList && cfg.HAVE_AMESOS2_KLU2) ||
  (name = "Superludist".toList && cfg.HAVE_AMESOS2_SUPERLUDIST) ||
  (name = "Basker".toList && cfg.HAVE_AMESOS2_BASKER)

/-- A name with the first letter in upper case and the rest in lower case. -/
def capitalized (s : List Char) : List Char :=
  match s with
  | [] => []
  | c :: cs => toupper c :: cs.map tolower

/-- The normalised name in the words of the specification: capitalised, with
"Superlu_dist" rewritten to "Superludist". -/
def normalizedName (s : List Char) : List Char :=
  if capitalized s = "Superlu_dist".toList then "Superludist".toList else capitalized s

/-- An availability query that accepts "Klu" only. -/
def kluQuery : List Char → Bool := fun n => n == "Klu".toList

/-- A configuration with KLU2 only. -/
def kluOnly : Amesos2Config := ⟨false, true, false, false⟩

/-- The test of line 81 on the normalised name: the fallback is taken. -/
def fallbackTaken (query : List Char → Bool) (type : List Char) : Prop :=
  normalizeType type = [] ∨ query (normalizeType type) = false

/-- The value line 213 stores at row `r`, column `c`. -/
def formValue {K H : Type} [Field K] (ext : Externals K H) (normalization : K)
    (nullspace nullspaceImp : List K) (r c : Nat) : K :=
  normalization * nullspace.getD r 0 * ext.conjugate (nullspaceImp.getD c 0)

/-- The state of the three arrays while lines 209-215 run: their sizes, the row pointers
of the first `rows` rows, and the entries of the positions that are `done`. -/
def FormInv {K H : Type} [Field K] (ext : Externals K H) (N M : Nat) (normalization : K)
    (nullspace nullspaceImp : List K) (rows : Nat) (done : Nat → Nat → Prop)
    (a : NewArrays K) : Prop :=
  a.newRowPointers.length = N + 1 ∧ a.newColIndices.length = N * M ∧
  a.newValues.length = N * M ∧
  (∀ r, r < rows → a.newRowPointers[r]? = some (r * M)) ∧
  (∀ r c, c < M → done r c →
    a.newColIndices[r * M + c]? = some (c : Int) ∧
    a.newValues[r * M + c]? = some (formValue ext normalization nullspace nullspaceImp r c))

/-- The local column, in the new column map, of the stored entry `jj` (line 221). -/
def localColumn {K : Type} (A : Matrix K) (colMap : Map) (jj : Nat) : Int :=
  colMap.getLocalElement (A.colMap.getGlobalElement (A.colIndices.getD jj (-1)))

/-- What the stored entry `jj` adds to local column `c`. -/
def addTerm {K : Type} [Field K] (A : Matrix K) (colMap : Map) (c jj : Nat) : K :=
  if localColumn A colMap jj = (c : Int) then A.values.getD jj 0 else 0

/-- What the stored entries `lo, ..., lo + cnt - 1` add to local column `c`. -/
def addSum {K : Type} [Field K] (A : Matrix K) (colMap : Map) (lo cnt c : Nat) : K :=
  ((List.range' lo cnt).map (addTerm A colMap c)).sum

/-- What the stored entries of row `r` add to local column `c`. -/
def rowSum {K : Type} [Field K] (A : Matrix K) (colMap : Map) (r c : Nat) : K :=
  addSum A colMap (A.rowPointers.getD r 0)
    (A.rowPointers.getD (r + 1) 0 - A.rowPointers.getD r 0) c

/-- The state of `newValues` while lines 219-225 run: position `(r, c)` holds its value
`base r c` from before the loop plus `S r c`. -/
def AddInv {K : Type} [Field K] (N M : Nat) (base S : Nat → Nat → K) (v : List K) : Prop :=
  v.length = N * M ∧ ∀ r c, r < N → c < M → v[r * M + c]? = some (base r c + S r c)

/-- The entry of `A` at local row `i` and global column `g`: the sum of the values
stored in row `i` under a column index whose global index is `g`, zero when there is none. -/
def Matrix.entry {K : Type} [Field K] (A : Matrix K) (i : Nat) (g : Int) : K :=
  ((List.range' (A.rowPointers.getD i 0)
      (A.rowPointers.getD (i + 1) 0 - A.rowPointers.getD i 0)).map
    (fun jj => if A.colMap.getGlobalElement (A.colIndices.getD jj (-1)) = g
      then A.values.getD jj 0 else 0)).sum

/-- The three arrays of `getAllValues` describe the rows of the row map: one row pointer
more than rows, row pointers inside the arrays of column indices and values, which have
the same size, and column indices that are local indices of the column map. -/
def Matrix.wellFormedCrs {K : Type} (A : Matrix K) : Prop :=
  A.isCrs = true ∧
  A.rowPointers.length = A.rowMap.gids.length + 1 ∧
  (∀ p ∈ A.rowPointers, p ≤ A.colIndices.length) ∧
  A.colIndices.length = A.values.length ∧
  (∀ c ∈ A.colIndices, 0 ≤ c ∧ c < (A.colMap.gids.length : Int))

/-- An `M x M` operator on a single process: one process in the communicator, every
global row owned by it, distinct global indices, and a column map over global indices of
the row map. -/
def Matrix.singleProcessSquare {K : Type} (A : Matrix K) : Prop :=
  A.rowMap.commSize = 1 ∧
  A.rowMap.globalNumElements = A.rowMap.gids.length ∧
  A.rowMap.gids.Nodup ∧
  (∀ g ∈ A.colMap.gids, g ∈ A.rowMap.gids)

/-- A row map of two rows on one process. -/
def exampleRowMap : Map := ⟨[0, 1], 2, 1, 0, 1⟩

/-- The operator with rows `(20, 10)` and `(0, 30)`, stored with the column map `[1, 0]`. -/
def exampleA : Matrix ℚ :=
  ⟨exampleRowMap, ⟨[1, 0], 2, 1, 0, 1⟩, exampleRowMap, exampleRowMap, true,
    [0, 2, 3], [0, 1, 0], [10, 20, 30], none, none⟩

/-- Collaborators over the rationals: a solver object is the name, the matrix and the
parameters it was given; the 2-norm is that of the vector `(3, 4)`. -/
def exampleExt : Externals ℚ (List Char × Matrix ℚ × Option Amesos2List) :=
  { query := kluQuery
    create := fun n m => some (n, m, none)
    solverName := fun h => h.1
    setParameters := fun h p => (h.1, h.2.1, some p)
    solve := fun _ X _ => X
    getNnzLU := fun h => h.2.1.values.length
    norm2 := fun _ => 5
    doImport := fun _ _ v => v
    conjugate := fun x => x
    divide := fun a b => a / b
    Op2NonConstTpetraCrs := fun m => .ok m }

/-- The collaborators of `exampleExt` with a 2-norm that is zero. -/
def zeroNormExt : Externals ℚ (List Char × Matrix ℚ × Option Amesos2List) :=
  { exampleExt with norm2 := fun _ => 0 }

/-- A smoother constructed for "klu" with "fix nullspace" set. -/
def exampleSmoother : Amesos2Smoother ℚ (List Char × Matrix ℚ × Option Amesos2List) :=
  Amesos2Smoother.new exampleExt kluOnly "klu".toList ⟨true, ⟨[], []⟩⟩

/-- A smoother constructed for "klu" with "fix nullspace" not set. -/
def plainSmoother : Amesos2Smoother ℚ (List Char × Matrix ℚ × Option Amesos2List) :=
  Amesos2Smoother.new exampleExt kluOnly "klu".toList ⟨false, ⟨[], []⟩⟩

/-- The operator handed to `create` by a call of `Setup`: lines 139-240, the operator of
the level or, with "fix nullspace" set, the corrected operator, converted to Tpetra. -/
def tpetraOperator {K H : Type} [Field K] (ext : Externals K H) (pL : ParameterList)
    (lvl : Level K) : Except Exception (Matrix K) :=
  match (if pL.fixNullspace then (fixNullspace ext lvl.A lvl.Nullspace).2 else .ok lvl.A) with
  | .error e => .error e
  | .ok factorA => ext.Op2NonConstTpetraCrs factorA

/-- The smoothers that calls of the constructor, `Setup`, `Apply` and `Copy` produce, each
with a flag that tells whether a call of `Setup` on that very object has succeeded. -/
inductive Reachable {K H : Type} [Field K] (ext : Externals K H) (cfg : Amesos2Config) :
    Amesos2Smoother K H → Bool → Prop where
  | constructed (type : List Char) (paramList : ParameterList) :
      Reachable ext cfg (Amesos2Smoother.new ext cfg type paramList) false
  | setupSucceeded (s : Amesos2Smoother K H) (g : Bool) (lvl : Level K) :
      Reachable ext cfg s g → (Setup ext s lvl).error = none →
      Reachable ext cfg (Setup ext s lvl).smoother true
  | setupFailed (s : Amesos2Smoother K H) (g : Bool) (lvl : Level K) :
      Reachable ext cfg s g → (Setup ext s lvl).error ≠ none →
      Reachable ext cfg (Setup ext s lvl).smoother g
  | applied (s : Amesos2Smoother K H) (g : Bool) (X B : MultiVector K) :
      Reachable ext cfg s g → Reachable ext cfg (Apply ext s X B).smoother g
  | copied (s : Amesos2Smoother K H) (g : Bool) :
      Reachable ext cfg s g → Reachable ext cfg (Copy s) false

/-- The smoother `plainSmoother` after `Setup` on the operator `exampleA`. -/
def setUpSmoother : Amesos2Smoother ℚ (List Char × Matrix ℚ × Option Amesos2List) :=
  (Setup exampleExt plainSmoother ⟨exampleA, ⟨2, [[3, 4]]⟩⟩).smoother

/-- The state of the two private arrays while lines 273-276 run: their sizes are those
they had, the first `i` entries are those of `X` and `B`, the others are as they were. -/
def CopyInInv {K : Type} (xd bd x0 b0 : List K) (i : Nat) (d : List K × List K) : Prop :=
  d.1.length = x0.length ∧ d.2.length = b0.length ∧
  (∀ k, k < i → d.1[k]? = xd[k]? ∧ d.2[k]? = bd[k]?) ∧
  (∀ k, i ≤ k → d.1[k]? = x0[k]? ∧ d.2[k]? = b0[k]?)

/-- The state of the array of `X` while lines 297-298 run. -/
def CopyOutInv {K : Type} (sd x0 : List K) (i : Nat) (d : List K) : Prop :=
  d.length = x0.length ∧ (∀ k, k < i → d[k]? = sd[k]?) ∧ (∀ k, i ≤ k → d[k]? = x0[k]?)

/-- A set-up smoother with the transformed layout in effect, private vectors of two
entries, and the solver object of `setUpSmoother`. -/
def transformedSmoother : Amesos2Smoother ℚ (List Char × Matrix ℚ × Option Amesos2List) :=
  { setUpSmoother with
    useTransformation_ := true, X_ := some ⟨2, [[0, 0]]⟩, B_ := some ⟨2, [[0, 0]]⟩ }

/-- Row `i` of the product of the operator with a vector given over the row map: the sum,
over the stored entries of the row, of the value times the entry of the vector at the
column of the stored entry. -/
def Matrix.mulVec {K : Type} [Field K] (A : Matrix K) (x : List K) (i : Nat) : K :=
  ((List.range' (A.rowPointers.getD i 0)
      (A.rowPointers.getD (i + 1) 0 - A.rowPointers.getD i 0)).map
    (fun jj => A.values.getD jj 0 *
      x.getD (A.rowMap.getLocalElement
        (A.colMap.getGlobalElement (A.colIndices.getD jj (-1)))).toNat 0)).sum

/-- The singular operator with rows `(4, -3)` and `(-8, 6)`, whose kernel holds `(3, 4)`. -/
def singularA : Matrix ℚ :=
  ⟨exampleRowMap, exampleRowMap, exampleRowMap, exampleRowMap, true,
    [0, 2, 4], [0, 1, 0, 1], [4, -3, -8, 6], none, none⟩

/-- Line 268-269, the text of the exception of `Apply` for more than one column. -/
def multiVectorMessage : List Char :=
  ("MueLu::Amesos2Smoother::Apply: Fixing coarse matrix for " ++
    "Amesos2 for multivectors has not been implemented yet.").toList

/-- The global indices of the row map are contiguous: the test of line 246 fails. -/
def Map.contiguous (m : Map) : Prop :=
  m.globalNumElements = szOfInt ((m.maxAllGlobalIndex - m.minAllGlobalIndex) + 1)

/-- The value of the parameter of that name in a list of values, if there is one. -/
def lookupValue (l : List (List Char × ParameterValue)) (name : List Char) :
    Option ParameterValue :=
  (l.find? (fun e => e.1 == name)).map (fun e => e.2)

/-- The entry of that name in the "Amesos2" list, if there is one. -/
def Amesos2List.lookup (p : Amesos2List) (name : List Char) : Option ParameterEntry :=
  (p.entries.find? (fun e => e.1 == name)).map (fun e => e.2)

/-- A row map of two rows with the global indices 0 and 2, which are not contiguous. -/
def gapRowMap : Map := ⟨[0, 2], 2, 1, 0, 2⟩

/-- Parameters of the user with a sublist for the solver "Klu" that does not set
"IsContiguous". -/
def kluParameters : ParameterList :=
  ⟨false, ⟨[], [("Klu".toList, .list [("Trans".toList, .string "NOTRANS".toList)])]⟩⟩

/-- Two smoothers hold the same solver object: the `RCP`s `prec_` of both are not null
and point to one object. `ident` gives the identity of the object a handle points to. -/
def sharesSolver {K H : Type} (ident : H → Nat) (a b : Amesos2Smoother K H) : Prop :=
  ∃ h h', a.prec_ = some h ∧ b.prec_ = some h' ∧ ident h = ident h'

/-- The backend as it stands when `k` solver objects have been created: the object that
`create` returns is a new one, of identity `k`, and `setParameters` acts on the object it
is given. -/
def createsNew {K H : Type} (ext : Externals K H) (ident : H → Nat) (k : Nat) : Prop :=
  (∀ name m h, ext.create name m = some h → ident h = k) ∧
  (∀ h p, ident (ext.setParameters h p) = ident h)

/-- The collaborators of `exampleExt` when `k` solver objects have been created: a solver
object is its identity, the name, the matrix and the parameters it was given. -/
def allocExt (k : Nat) : Externals ℚ (Nat × List Char × Matrix ℚ × Option Amesos2List) :=
  { query := kluQuery
    create := fun n m => some (k, n, m, none)
    solverName := fun h => h.2.1
    setParameters := fun h p => (h.1, h.2.1, h.2.2.1, some p)
    solve := fun _ X _ => X
    getNnzLU := fun h => h.2.2.1.values.length
    norm2 := fun _ => 5
    doImport := fun _ _ v => v
    conjugate := fun x => x
    divide := fun a b => a / b
    Op2NonConstTpetraCrs := fun m => .ok m }

/-- The identity of a solver object of `allocExt`. -/
def solverIdent (h : Nat × List Char × Matrix ℚ × Option Amesos2List) : Nat := h.1

/-- A smoother constructed for "klu" and set up on `exampleA`, with the solver object
number `k`. -/
def allocSetUp (k : Nat) :
    Amesos2Smoother ℚ (Nat × List Char × Matrix ℚ × Option Amesos2List) :=
  (Setup (allocExt k) (Amesos2Smoother.new (allocExt k) kluOnly "klu".toList ⟨false, ⟨[], []⟩⟩)
    ⟨exampleA, ⟨2, [[3, 4]]⟩⟩).smoother

theorem ofNat_toNat_small (n : Nat) (h : n < 200) : (Char.ofNat n).toNat = n := by
  interval_cases n <;> rfl

theorem toupper_tolower (c : Char) : toupper (tolower c) = toupper c := by
  unfold toupper tolower
  by_cases h : c.toNat ≥ 65 ∧ c.toNat ≤ 90
  · have h1 : c.toLower = Char.ofNat (c.toNat + 32) := by
      simp only [Char.toLower]; rw [if_pos h]
    have h2 : (Char.ofNat (c.toNat + 32)).toNat = c.toNat + 32 :=
      ofNat_toNat_small _ (by omega)
    have h3 : c.toUpper = c := by
      simp only [Char.toUpper]; rw [if_neg (by omega)]
    rw [h1, h3]
    simp only [Char.toUpper, h2]
    rw [if_pos (by omega)]
    have h4 : c.toNat + 32 - 32 = c.toNat := by omega
    rw [h4]
    exact Char.ofNat_toNat c
  · have h1 : c.toLower = c := by
      simp only [Char.toLower]; rw [if_neg h]
    rw [h1]

theorem toAbcde_eq (s : List Char) :
    toAbcde s = match s.map tolower with
      | [] => []
      | c :: cs => toupper c :: cs := by
  cases s with
  | nil => simp [toAbcde]
  | cons a l => simp [toAbcde]

theorem toAbcde_eq_capitalized (s : List Char) : toAbcde s = capitalized s := by
  cases s with
  | nil => simp [toAbcde, capitalized]
  | cons a l => simp [toAbcde, capitalized, toupper_tolower]

theorem normalizeType_eq_normalizedName (s : List Char) :
    normalizeType s = normalizedName s := by
  simp only [normalizeType, normalizedName, toAbcde_eq_capitalized]

theorem normalizeType_eq_nil (s : List Char) : normalizeType s = [] ↔ s = [] := by
  cases s with
  | nil => simp [normalizeType, toAbcde]
  | cons a l =>
    simp only [normalizeType, toAbcde]
    simp
    split <;> simp

theorem defaultType_eq_find (cfg : Amesos2Config) :
    defaultType cfg = preferenceChain.find? (compiledIn cfg) := by
  rcases cfg with ⟨a, b, c, d⟩
  cases a <;> cases b <;> cases c <;> cases d <;> decide

theorem defaultType_eq_none (cfg : Amesos2Config) :
    defaultType cfg = none ↔ ∀ n ∈ preferenceChain, compiledIn cfg n = false := by
  rw [defaultType_eq_find]
  simp [List.find?_eq_none]

/-! ## Theorems on the constructor -/

/-- C2: two requested names that differ only in letter case, and a case variant of
"superlu_dist" against a case variant of "superludist", are normalised to the same name
(the capitalised name, "Superlu_dist" rewritten to "Superludist"), and the constructor
resolves them to the same backend name for a fixed query and a fixed compiled-in set. -/
theorem normalizeType_case_alias_insensitive (query : List Char → Bool) (cfg : Amesos2Config)
    (s t : List Char)
    (h : s.map tolower = t.map tolower ∨
      (s.map tolower = "superlu_dist".toList ∧ t.map tolower = "superludist".toList)) :
    normalizeType s = normalizeType t ∧
      normalizeType s = normalizedName s ∧
      (construct query cfg s).type_ = (construct query cfg t).type_ := by
  have hn : normalizeType s = normalizeType t := by
    rcases h with h | ⟨h1, h2⟩
    · simp only [normalizeType, toAbcde_eq, h]
    · simp only [normalizeType, toAbcde_eq, h1, h2]
      decide
  exact ⟨hn, normalizeType_eq_normalizedName s, by simp only [construct, hn]⟩

theorem normalizeType_case_alias_insensitive_witness :
    ("SuperLU_DIST".toList.map tolower = "superluDist".toList.map tolower ∨
      ("SuperLU_DIST".toList.map tolower = "superlu_dist".toList ∧
        "superluDist".toList.map tolower = "superludist".toList)) ∧
    normalizeType "SuperLU_DIST".toList = normalizeType "superluDist".toList ∧
      normalizeType "SuperLU_DIST".toList = normalizedName "SuperLU_DIST".toList ∧
      (construct kluQuery kluOnly "SuperLU_DIST".toList).type_ =
        (construct kluQuery kluOnly "superluDist".toList).type_ :=
  ⟨Or.inr ⟨by decide, by decide⟩,
    normalizeType_case_alias_insensitive kluQuery kluOnly _ _ (Or.inr ⟨by decide, by decide⟩)⟩

/-- C3: when the normalised name is not empty and the query accepts it, the resolved name
is the normalised name; otherwise it is the first compiled-in backend of the order
Superlu, Klu, Superludist, Basker, whatever name was requested, which is the first backend
of that order the query accepts when the query accepts what is compiled in. -/
theorem construct_type_ (query : List Char → Bool) (cfg : Amesos2Config) (type : List Char) :
    (normalizeType type ≠ [] → query (normalizeType type) = true →
      (construct query cfg type).type_ = normalizeType type) ∧
    (∀ Y, fallbackTaken query type → preferenceChain.find? (compiledIn cfg) = some Y →
      (construct query cfg type).type_ = Y) ∧
    (∀ type', fallbackTaken query type → fallbackTaken query type' →
      preferenceChain.find? (compiledIn cfg) ≠ none →
      (construct query cfg type).type_ = (construct query cfg type').type_) ∧
    (∀ Y, (∀ n ∈ preferenceChain, query n = compiledIn cfg n) → fallbackTaken query type →
      preferenceChain.find? query = some Y → (construct query cfg type).type_ = Y) := by
  have key : ∀ t Y, fallbackTaken query t → preferenceChain.find? (compiledIn cfg) = some Y →
      (construct query cfg t).type_ = Y := by
    intro t Y hf hY
    rw [← defaultType_eq_find] at hY
    have hc : (normalizeType t = [] || query (normalizeType t) == false) = true := by
      rcases hf with hf | hf <;> simp [hf]
    simp only [construct, hc, hY, if_true]
  refine ⟨?_, key type, ?_, ?_⟩
  · intro h1 h2
    simp [construct, h1, h2]
  · intro type' hf hf' hne
    obtain ⟨Y, hY⟩ := Option.ne_none_iff_exists'.mp hne
    rw [key type Y hf hY, key type' Y hf' hY]
  · intro Y hq hf hY
    apply key type Y hf
    rw [← hY]
    simp only [preferenceChain, List.mem_cons, List.mem_singleton, List.not_mem_nil, or_false,
      forall_eq_or_imp, forall_eq] at hq
    simp only [preferenceChain, List.find?, hq.1, hq.2.1, hq.2.2.1, hq.2.2.2]

/-- C4: with at least one backend compiled in, the constructor writes a warning exactly
when the fallback is taken for a non-empty name, an informational line exactly when the
requested name is empty, and nothing when the name is not empty and accepted by the query. -/
theorem construct_log (query : List Char → Bool) (cfg : Amesos2Config) (type : List Char)
    (hcfg : cfg.HAVE_AMESOS2_SUPERLU = true ∨ cfg.HAVE_AMESOS2_KLU2 = true ∨
      cfg.HAVE_AMESOS2_SUPERLUDIST = true ∨ cfg.HAVE_AMESOS2_BASKER = true) :
    ((∃ m ∈ (construct query cfg type).log, m.cls = MsgType.Warnings0) ↔
      (fallbackTaken query type ∧ normalizeType type ≠ [])) ∧
    ((∃ m ∈ (construct query cfg type).log, m.cls = MsgType.Runtime1) ↔ type = []) ∧
    (normalizeType type ≠ [] → query (normalizeType type) = true →
      (construct query cfg type).log = []) := by
  obtain ⟨Y, hY⟩ : ∃ Y, defaultType cfg = some Y := by
    rcases cfg with ⟨a, b, c, d⟩
    simp only at hcfg
    simp only [defaultType]
    cases a <;> cases b <;> cases c <;> cases d <;> simp at hcfg ⊢
  rw [← normalizeType_eq_nil type]
  by_cases h1 : normalizeType type = []
  · simp [construct, fallbackTaken, h1, hY]
  · by_cases h2 : query (normalizeType type) = true
    · simp [construct, fallbackTaken, h1, h2]
    · simp only [Bool.not_eq_true] at h2
      simp [construct, fallbackTaken, h1, h2, hY]

theorem construct_log_witness :
    (kluOnly.HAVE_AMESOS2_SUPERLU = true ∨ kluOnly.HAVE_AMESOS2_KLU2 = true ∨
      kluOnly.HAVE_AMESOS2_SUPERLUDIST = true ∨ kluOnly.HAVE_AMESOS2_BASKER = true) ∧
    ((∃ m ∈ (construct kluQuery kluOnly "basker".toList).log, m.cls = MsgType.Warnings0) ↔
      (fallbackTaken kluQuery "basker".toList ∧ normalizeType "basker".toList ≠ [])) ∧
    ((∃ m ∈ (construct kluQuery kluOnly "basker".toList).log, m.cls = MsgType.Runtime1) ↔
      "basker".toList = []) ∧
    (normalizeType "basker".toList ≠ [] → kluQuery (normalizeType "basker".toList) = true →
      (construct kluQuery kluOnly "basker".toList).log = []) :=
  ⟨Or.inr (Or.inl rfl), construct_log kluQuery kluOnly "basker".toList (Or.inr (Or.inl rfl))⟩

/-- C5: the constructor declares failure exactly when the fallback is taken with no
backend of the preference list compiled in, or the query rejects the resolved name;
otherwise the outcome is success and the query accepts the resolved name. -/
theorem construct_outcome (query : List Char → Bool) (cfg : Amesos2Config) (type : List Char) :
    ((construct query cfg type).outcomeFailed = true ↔
      ((fallbackTaken query type ∧ ∀ n ∈ preferenceChain, compiledIn cfg n = false) ∨
        query (construct query cfg type).type_ = false)) ∧
    ((construct query cfg type).outcomeFailed = false →
      query (construct query cfg type).type_ = true) := by
  rw [← defaultType_eq_none]
  by_cases h1 : normalizeType type = []
  · cases hY : defaultType cfg with
    | none => simp [construct, fallbackTaken, h1, hY]
    | some Y => simp [construct, fallbackTaken, h1, hY]
  · by_cases h2 : query (normalizeType type) = true
    · simp [construct, fallbackTaken, h1, h2]
    · simp only [Bool.not_eq_true] at h2
      cases hY : defaultType cfg with
      | none => simp [construct, fallbackTaken, h1, h2, hY]
      | some Y => simp [construct, fallbackTaken, h1, h2, hY]

/-! ## Lemmas on arrays and loops -/

theorem szMul_of_lt {a b : Nat} (h : a * b < SIZE_MOD) : szMul a b = a * b :=
  Nat.mod_eq_of_lt h

theorem szAdd_of_lt {a b : Nat} (h : a + b < SIZE_MOD) : szAdd a b = a + b :=
  Nat.mod_eq_of_lt h

theorem szOfInt_natCast {k : Nat} (h : k < SIZE_MOD) : szOfInt (k : Int) = k := by
  unfold szOfInt
  rw [← Int.natCast_mod, Int.toNat_natCast]
  exact Nat.mod_eq_of_lt h

theorem readAt_of_getElem? {α : Type} {a : List α} {i : Nat} {x : α} (h : a[i]? = some x) :
    readAt a i = .ok x := by
  simp [readAt, h]

theorem readAt_of_lt {α : Type} (a : List α) (i : Nat) (d : α) (h : i < a.length) :
    readAt a i = .ok (a.getD i d) := by
  simp [readAt, List.getD, List.getElem?_eq_getElem h]

theorem writeAt_of_lt {α : Type} {a : List α} {i : Nat} (x : α) (h : i < a.length) :
    writeAt a i x = .ok (a.set i x) := by
  simp [writeAt, h]

/-- A loop whose body keeps an invariant and does not throw runs to its end and
establishes the invariant there. -/
theorem forLoop_invariant {σ : Type} (body : Nat → σ → Except Exception σ)
    (P : Nat → σ → Prop) :
    ∀ (k lo : Nat) (s : σ), P lo s →
      (∀ i s, lo ≤ i → i < lo + k → P i s → ∃ s', body i s = .ok s' ∧ P (i + 1) s') →
      ∃ s', forLoop body k lo s = .ok s' ∧ P (lo + k) s' := by
  intro k
  induction k with
  | zero => intro lo s h0 _; exact ⟨s, rfl, by simpa using h0⟩
  | succ k ih =>
    intro lo s h0 hstep
    obtain ⟨s1, hb, h1⟩ := hstep lo s (Nat.le_refl _) (by omega) h0
    obtain ⟨s2, hl, h2⟩ := ih (lo + 1) s1 h1 (fun i s hi hi' hP =>
      hstep i s (by omega) (by omega) hP)
    refine ⟨s2, ?_, ?_⟩
    · simp only [forLoop, hb]; exact hl
    · have : lo + (k + 1) = lo + 1 + k := by omega
      rw [this]; exact h2

theorem index_lt {N M i j : Nat} (hi : i < N) (hj : j < M) : i * M + j < N * M := by
  calc i * M + j < i * M + M := by omega
    _ = (i + 1) * M := by ring
    _ ≤ N * M := Nat.mul_le_mul_right M hi

theorem index_inj {M r c i j : Nat} (hc : c < M) (hj : j < M) (h : r * M + c = i * M + j) :
    r = i ∧ c = j := by
  have h1 : (r * M + c) / M = r := by
    rw [Nat.add_comm, Nat.add_mul_div_right _ _ (by omega), Nat.div_eq_of_lt hc, Nat.zero_add]
  have h2 : (i * M + j) / M = i := by
    rw [Nat.add_comm, Nat.add_mul_div_right _ _ (by omega), Nat.div_eq_of_lt hj, Nat.zero_add]
  have hri : r = i := by rw [← h1, ← h2, h]
  subst hri
  exact ⟨rfl, by omega⟩

theorem formInner_step {K H : Type} [Field K] (ext : Externals K H) (N M : Nat)
    (normalization : K) (nullspace nullspaceImp : List K)
    (hNM : N * M < SIZE_MOD) (hn : N ≤ nullspace.length) (hm : M ≤ nullspaceImp.length)
    (i : Nat) (hi : i < N) (j : Nat) (hj : j < M) (a : NewArrays K)
    (hP : FormInv ext N M normalization nullspace nullspaceImp (i + 1)
      (fun r c => r < i ∨ (r = i ∧ c < j)) a) :
    ∃ a', formInner ext M normalization nullspace nullspaceImp i j a = .ok a' ∧
      FormInv ext N M normalization nullspace nullspaceImp (i + 1)
        (fun r c => r < i ∨ (r = i ∧ c < j + 1)) a' := by
  obtain ⟨h1, h2, h3, h4, h5⟩ := hP
  have hidx : i * M + j < N * M := index_lt hi hj
  have hmul : szMul i M = i * M := szMul_of_lt (by omega)
  have hadd : szAdd (i * M) j = i * M + j := szAdd_of_lt (by omega)
  refine ⟨{ a with newColIndices := a.newColIndices.set (i * M + j) (j : Int),
                   newValues := a.newValues.set (i * M + j)
                     (normalization * nullspace.getD i 0 * ext.conjugate (nullspaceImp.getD j 0)) },
    ?_, ?_⟩
  · simp only [formInner, hmul, hadd]
    rw [writeAt_of_lt _ (by omega), readAt_of_lt nullspace i 0 (by omega),
      readAt_of_lt nullspaceImp j 0 (by omega)]
    simp only
    rw [writeAt_of_lt _ (by omega)]
  · refine ⟨h1, by simpa using h2, by simpa using h3, h4, ?_⟩
    intro r c hc hd
    by_cases he : r * M + c = i * M + j
    · obtain ⟨hr, hcj⟩ := index_inj hc hj he
      subst hr; subst hcj
      simp only [List.getElem?_set, h2, h3, hidx, if_true, formValue]
      simp
    · have he' : i * M + j ≠ r * M + c := fun h => he h.symm
      simp only [List.getElem?_set_ne he']
      apply h5 r c hc
      rcases hd with hd | ⟨hr, hcj⟩
      · exact Or.inl hd
      · refine Or.inr ⟨hr, ?_⟩
        subst hr
        have : c ≠ j := fun h => he (by rw [h])
        omega

theorem formOuter_step {K H : Type} [Field K] (ext : Externals K H) (N M : Nat)
    (normalization : K) (nullspace nullspaceImp : List K)
    (hNM : N * M < SIZE_MOD) (hn : N ≤ nullspace.length) (hm : M ≤ nullspaceImp.length)
    (i : Nat) (hi : i < N) (a : NewArrays K)
    (hP : FormInv ext N M normalization nullspace nullspaceImp i (fun r _ => r < i) a) :
    ∃ a', formOuter ext M normalization nullspace nullspaceImp i a = .ok a' ∧
      FormInv ext N M normalization nullspace nullspaceImp (i + 1) (fun r _ => r < i + 1) a' := by
  obtain ⟨h1, h2, h3, h4, h5⟩ := hP
  have hmul : szMul i M = i * M :=
    szMul_of_lt (lt_of_le_of_lt (Nat.mul_le_mul_right M (Nat.le_of_lt hi)) hNM)
  have hstart : FormInv ext N M normalization nullspace nullspaceImp (i + 1)
      (fun r c => r < i ∨ (r = i ∧ c < 0))
      { a with newRowPointers := a.newRowPointers.set i (i * M) } := by
    refine ⟨by simpa using h1, h2, h3, ?_, ?_⟩
    · intro r hr
      by_cases hri : r = i
      · subst hri; simp [List.getElem?_set, h1]; omega
      · have : i ≠ r := fun h => hri h.symm
        simp only [List.getElem?_set_ne this]
        exact h4 r (by omega)
    · intro r c hc hd
      rcases hd with hd | ⟨_, hd⟩
      · exact h5 r c hc hd
      · omega
  obtain ⟨a', hl, hQ⟩ := forLoop_invariant
    (formInner ext M normalization nullspace nullspaceImp i)
    (fun j a => FormInv ext N M normalization nullspace nullspaceImp (i + 1)
      (fun r c => r < i ∨ (r = i ∧ c < j)) a)
    M 0 _ hstart
    (fun j s _ hj hP => formInner_step ext N M normalization nullspace nullspaceImp
      hNM hn hm i hi j (by omega) s hP)
  refine ⟨a', ?_, ?_⟩
  · simp only [formOuter, hmul]
    rw [writeAt_of_lt _ (by omega)]
    exact hl
  · obtain ⟨q1, q2, q3, q4, q5⟩ := hQ
    refine ⟨q1, q2, q3, q4, ?_⟩
    intro r c hc hd
    apply q5 r c hc
    by_cases hri : r = i
    · exact Or.inr ⟨hri, by omega⟩
    · exact Or.inl (by omega)

theorem formLoop_ok {K H : Type} [Field K] (ext : Externals K H) (N M : Nat)
    (normalization : K) (nullspace nullspaceImp : List K)
    (hNM : N * M < SIZE_MOD) (hn : N ≤ nullspace.length) (hm : M ≤ nullspaceImp.length)
    (a : NewArrays K) (h1 : a.newRowPointers.length = N + 1)
    (h2 : a.newColIndices.length = N * M) (h3 : a.newValues.length = N * M) :
    ∃ a', forLoop (formOuter ext M normalization nullspace nullspaceImp) N 0 a = .ok a' ∧
      FormInv ext N M normalization nullspace nullspaceImp N (fun r _ => r < N) a' := by
  have h := forLoop_invariant (formOuter ext M normalization nullspace nullspaceImp)
    (fun i a => FormInv ext N M normalization nullspace nullspaceImp i (fun r _ => r < i) a)
    N 0 a ⟨h1, h2, h3, fun r hr => by omega, fun r c _ hd => by omega⟩
    (fun i s _ hi hP => formOuter_step ext N M normalization nullspace nullspaceImp
      hNM hn hm i (by omega) s hP)
  simpa using h

theorem addSum_succ {K : Type} [Field K] (A : Matrix K) (colMap : Map) (lo cnt c : Nat) :
    addSum A colMap lo (cnt + 1) c = addSum A colMap lo cnt c + addTerm A colMap c (lo + cnt) := by
  simp [addSum, List.range'_concat]

theorem addInner_step {K : Type} [Field K] (A : Matrix K) (colMap : Map) (N M : Nat)
    (base : Nat → Nat → K) (hNM : N * M < SIZE_MOD)
    (hcol : ∀ jj, jj < A.colIndices.length → ∃ k : Nat, k < M ∧ localColumn A colMap jj = (k : Int))
    (hval : A.colIndices.length ≤ A.values.length)
    (i : Nat) (hi : i < N) (lo jj : Nat) (hlo : lo ≤ jj) (hjj : jj < A.colIndices.length)
    (v : List K)
    (hP : AddInv N M base (fun r c => if r < i then rowSum A colMap r c
      else if r = i then addSum A colMap lo (jj - lo) c else 0) v) :
    ∃ v', addInner A colMap M i jj v = .ok v' ∧
      AddInv N M base (fun r c => if r < i then rowSum A colMap r c
        else if r = i then addSum A colMap lo (jj + 1 - lo) c else 0) v' := by
  obtain ⟨h1, h2⟩ := hP
  obtain ⟨k, hk, hloc⟩ := hcol jj hjj
  have hidx : i * M + k < N * M := index_lt hi hk
  have hmul : szMul i M = i * M := szMul_of_lt (by omega)
  have hkk : szOfInt (k : Int) = k := szOfInt_natCast (by omega)
  have hadd : szAdd (i * M) k = i * M + k := szAdd_of_lt (by omega)
  have hloc' : colMap.getLocalElement (A.colMap.getGlobalElement (A.colIndices.getD jj (-1))) =
      (k : Int) := hloc
  have hsucc : jj + 1 - lo = (jj - lo) + 1 := by omega
  have hpos : lo + (jj - lo) = jj := by omega
  have hold := h2 i k hi hk
  simp only [Nat.lt_irrefl, if_false, if_true] at hold
  refine ⟨v.set (i * M + k)
    (base i k + addSum A colMap lo (jj - lo) k + A.values.getD jj 0), ?_, ?_⟩
  · simp only [addInner]
    rw [readAt_of_lt A.colIndices jj (-1) hjj, readAt_of_lt A.values jj 0 (by omega)]
    simp only [hloc', hmul, hkk, hadd]
    rw [readAt_of_getElem? hold]
    simp only
    rw [writeAt_of_lt _ (by omega)]
  · refine ⟨by simpa using h1, ?_⟩
    intro r c hr hc
    rw [hsucc]
    by_cases he : r * M + c = i * M + k
    · obtain ⟨hri, hck⟩ := index_inj hc hk he
      subst hri; subst hck
      simp only [List.getElem?_set, h1, hidx, if_true, Nat.lt_irrefl, if_false, addSum_succ, hpos]
      simp [addTerm, hloc, add_assoc]
    · have he' : i * M + k ≠ r * M + c := fun h => he h.symm
      simp only [List.getElem?_set_ne he']
      rw [h2 r c hr hc]
      by_cases hlt : r < i
      · simp [hlt]
      · by_cases hri : r = i
        · subst hri
          have hck : c ≠ k := fun h => he (by rw [h])
          have : ¬ ((k : Int) = (c : Int)) := by
            intro h; exact hck (by exact_mod_cast h.symm)
          simp [addSum_succ, hpos, addTerm, hloc, this]
        · simp [hlt, hri]

theorem addOuter_step {K : Type} [Field K] (A : Matrix K) (colMap : Map) (N M : Nat)
    (base : Nat → Nat → K) (hNM : N * M < SIZE_MOD) (hN : N < SIZE_MOD)
    (hcol : ∀ jj, jj < A.colIndices.length → ∃ k : Nat, k < M ∧ localColumn A colMap jj = (k : Int))
    (hval : A.colIndices.length ≤ A.values.length)
    (hrp : A.rowPointers.length = N + 1)
    (hrp' : ∀ p ∈ A.rowPointers, p ≤ A.colIndices.length)
    (i : Nat) (hi : i < N) (v : List K)
    (hP : AddInv N M base (fun r c => if r < i then rowSum A colMap r c else 0) v) :
    ∃ v', addOuter A colMap M i v = .ok v' ∧
      AddInv N M base (fun r c => if r < i + 1 then rowSum A colMap r c else 0) v' := by
  have hs : szAdd i 1 = i + 1 := szAdd_of_lt (by omega)
  have hhi : A.rowPointers.getD (i + 1) 0 ≤ A.colIndices.length := by
    apply hrp'
    rw [List.getD_eq_getElem _ 0 (by omega)]
    exact List.getElem_mem _
  have hstart : AddInv N M base (fun r c => if r < i then rowSum A colMap r c
      else if r = i then addSum A colMap (A.rowPointers.getD i 0)
        (A.rowPointers.getD i 0 - A.rowPointers.getD i 0) c else 0) v := by
    refine ⟨hP.1, ?_⟩
    intro r c hr hc
    rw [hP.2 r c hr hc]
    by_cases hlt : r < i
    · simp [hlt]
    · by_cases hri : r = i
      · subst hri; simp [addSum]
      · simp [hlt, hri]
  obtain ⟨v', hl, hQ⟩ := forLoop_invariant (addInner A colMap M i)
    (fun jj v => AddInv N M base (fun r c => if r < i then rowSum A colMap r c
      else if r = i then addSum A colMap (A.rowPointers.getD i 0)
        (jj - A.rowPointers.getD i 0) c else 0) v)
    (A.rowPointers.getD (i + 1) 0 - A.rowPointers.getD i 0) (A.rowPointers.getD i 0) v hstart
    (fun jj s h1 h2 hP => addInner_step A colMap N M base hNM hcol hval i hi
      (A.rowPointers.getD i 0) jj h1 (by omega) s hP)
  refine ⟨v', ?_, ?_⟩
  · simp only [addOuter, hs]
    rw [readAt_of_lt A.rowPointers i 0 (by omega), readAt_of_lt A.rowPointers (i + 1) 0 (by omega)]
    exact hl
  · refine ⟨hQ.1, ?_⟩
    intro r c hr hc
    rw [hQ.2 r c hr hc]
    by_cases hlt : r < i
    · have : r < i + 1 := by omega
      simp [hlt, this]
    · by_cases hri : r = i
      · subst hri
        simp [rowSum]
      · have : ¬ r < i + 1 := by omega
        simp [hlt, hri, this]

theorem addLoop_ok {K : Type} [Field K] (A : Matrix K) (colMap : Map) (N M : Nat)
    (base : Nat → Nat → K) (hNM : N * M < SIZE_MOD) (hN : N < SIZE_MOD)
    (hcol : ∀ jj, jj < A.colIndices.length → ∃ k : Nat, k < M ∧ localColumn A colMap jj = (k : Int))
    (hval : A.colIndices.length ≤ A.values.length)
    (hrp : A.rowPointers.length = N + 1)
    (hrp' : ∀ p ∈ A.rowPointers, p ≤ A.colIndices.length)
    (v : List K) (hlen : v.length = N * M)
    (hbase : ∀ r c, r < N → c < M → v[r * M + c]? = some (base r c)) :
    ∃ v', forLoop (addOuter A colMap M) N 0 v = .ok v' ∧ v'.length = N * M ∧
      ∀ r c, r < N → c < M → v'[r * M + c]? = some (base r c + rowSum A colMap r c) := by
  obtain ⟨v', hl, hQ⟩ := forLoop_invariant (addOuter A colMap M)
    (fun i v => AddInv N M base (fun r c => if r < i then rowSum A colMap r c else 0) v)
    N 0 v ⟨hlen, fun r c hr hc => by simp [hbase r c hr hc]⟩
    (fun i s _ hi hP => addOuter_step A colMap N M base hNM hN hcol hval hrp hrp' i
      (by omega) s hP)
  refine ⟨v', hl, hQ.1, ?_⟩
  intro r c hr hc
  have := hQ.2 r c hr hc
  simp only [Nat.zero_add, hr, if_true] at this
  exact this

/-- The arrays of the corrected operator, for any column map into which every stored
column of `A` translates: `buildNewA` returns, the row pointers are `i * M`, the column
indices of every row are `0, ..., M - 1`, and position `(r, c)` of the values holds the
scaled product of line 213 plus what the stored entries of row `r` add to column `c`. -/
theorem buildNewA_ok {K H : Type} [Field K] (ext : Externals K H) (A : Matrix K)
    (Nullspace NullspaceImp : MultiVector K) (colMap : Map) (importer : Option (Map × Map))
    (ns nsImp : List K)
    (hcrs : A.isCrs = true)
    (hNM : A.rowMap.gids.length * A.rowMap.globalNumElements < SIZE_MOD)
    (hN : A.rowMap.gids.length + 1 < SIZE_MOD)
    (hns : Nullspace.cols[0]? = some ns) (hnsImp : NullspaceImp.cols[0]? = some nsImp)
    (hn : A.rowMap.gids.length ≤ ns.length)
    (hm : A.rowMap.globalNumElements ≤ nsImp.length)
    (hcol : ∀ jj, jj < A.colIndices.length →
      ∃ k : Nat, k < A.rowMap.globalNumElements ∧ localColumn A colMap jj = (k : Int))
    (hval : A.colIndices.length ≤ A.values.length)
    (hrp : A.rowPointers.length = A.rowMap.gids.length + 1)
    (hrp' : ∀ p ∈ A.rowPointers, p ≤ A.colIndices.length) :
    ∃ newA, buildNewA ext A Nullspace NullspaceImp colMap importer = .ok newA ∧
      newA.rowMap = A.rowMap ∧ newA.colMap = colMap ∧
      newA.rowPointers.length = A.rowMap.gids.length + 1 ∧
      newA.colIndices.length = A.rowMap.gids.length * A.rowMap.globalNumElements ∧
      newA.values.length = A.rowMap.gids.length * A.rowMap.globalNumElements ∧
      (∀ r, r ≤ A.rowMap.gids.length →
        newA.rowPointers[r]? = some (r * A.rowMap.globalNumElements)) ∧
      (∀ r c, r < A.rowMap.gids.length → c < A.rowMap.globalNumElements →
        newA.colIndices[r * A.rowMap.globalNumElements + c]? = some (c : Int) ∧
        newA.values[r * A.rowMap.globalNumElements + c]? =
          some (formValue ext (ext.divide 1 (ext.norm2 ns * ext.norm2 ns)) ns nsImp r c +
            rowSum A colMap r c)) := by
  have hN1 : szAdd A.rowMap.gids.length 1 = A.rowMap.gids.length + 1 := szAdd_of_lt hN
  have hNM1 : szMul A.rowMap.gids.length A.rowMap.globalNumElements =
      A.rowMap.gids.length * A.rowMap.globalNumElements := szMul_of_lt hNM
  obtain ⟨a1, hform, f1, f2, f3, f4, f5⟩ := formLoop_ok ext A.rowMap.gids.length
    A.rowMap.globalNumElements (ext.divide 1 (ext.norm2 ns * ext.norm2 ns)) ns nsImp hNM hn hm
    { newRowPointers := List.replicate (A.rowMap.gids.length + 1) 0,
      newColIndices := List.replicate (A.rowMap.gids.length * A.rowMap.globalNumElements) 0,
      newValues := List.replicate (A.rowMap.gids.length * A.rowMap.globalNumElements) 0 }
    (by simp) (by simp) (by simp)
  obtain ⟨v', hadd, g1, g2⟩ := addLoop_ok A colMap A.rowMap.gids.length
    A.rowMap.globalNumElements
    (formValue ext (ext.divide 1 (ext.norm2 ns * ext.norm2 ns)) ns nsImp) hNM (by omega)
    hcol hval hrp hrp' a1.newValues f3 (fun r c hr hc => (f5 r c hc hr).2)
  refine ⟨{ rowMap := A.rowMap, colMap := colMap, domainMap := A.domainMap,
            rangeMap := A.rangeMap, isCrs := true,
            rowPointers := a1.newRowPointers.set A.rowMap.gids.length
              (A.rowMap.gids.length * A.rowMap.globalNumElements),
            colIndices := a1.newColIndices, values := v',
            importer := importer, exporter := A.exporter }, ?_, rfl, rfl, ?_, f2, g1, ?_, ?_⟩
  · simp only [buildNewA, hcrs, MultiVector.getData, readAt_of_getElem? hns,
      readAt_of_getElem? hnsImp, Map.getLocalNumElements, hN1, hNM1]
    simp only [Bool.true_eq_false, if_false, hform]
    rw [writeAt_of_lt _ (by omega)]
    simp only [hadd]
  · simpa using f1
  · intro r hr
    by_cases hrN : r = A.rowMap.gids.length
    · subst hrN
      simp [List.getElem?_set, f1]
    · have hne : A.rowMap.gids.length ≠ r := fun h => hrN h.symm
      simp only [List.getElem?_set_ne hne]
      exact f4 r (by omega)
  · intro r c hr hc
    exact ⟨(f5 r c hc hr).1, g2 r c hr hc⟩

theorem getLocalElement_of_mem (m : Map) (g : Int) (h : g ∈ m.gids) :
    ∃ k : Nat, k < m.gids.length ∧ m.getLocalElement g = (k : Int) ∧ m.gids.getD k (-1) = g := by
  have hlt : m.gids.indexOf g < m.gids.length := List.indexOf_lt_length.mpr h
  refine ⟨m.gids.indexOf g, hlt, by simp [Map.getLocalElement, h], ?_⟩
  rw [List.getD_eq_getElem _ _ hlt]
  exact List.getElem_indexOf hlt

theorem getLocalElement_eq_iff (m : Map) (hnd : m.gids.Nodup) (g : Int) (h : g ∈ m.gids)
    (c : Nat) (hc : c < m.gids.length) :
    m.getLocalElement g = (c : Int) ↔ g = m.gids.getD c (-1) := by
  obtain ⟨k, hk, hloc, hg⟩ := getLocalElement_of_mem m g h
  rw [hloc]
  constructor
  · intro hkc
    have : k = c := by exact_mod_cast hkc
    subst this
    exact hg.symm
  · intro hgc
    have h1 : m.gids.indexOf (m.gids[c]) = c := List.indexOf_getElem hnd c hc
    have h2 : m.gids.indexOf (m.gids[k]) = k := List.indexOf_getElem hnd k hk
    rw [List.getD_eq_getElem _ _ hc] at hgc
    rw [List.getD_eq_getElem _ _ hk] at hg
    have : k = c := by rw [← h2, ← h1, hg, hgc]
    rw [this]

theorem getGlobalElement_mem {K : Type} (A : Matrix K)
    (hci : ∀ c ∈ A.colIndices, 0 ≤ c ∧ c < (A.colMap.gids.length : Int))
    (jj : Nat) (hjj : jj < A.colIndices.length) :
    A.colMap.getGlobalElement (A.colIndices.getD jj (-1)) ∈ A.colMap.gids := by
  have hmem : A.colIndices.getD jj (-1) ∈ A.colIndices := by
    rw [List.getD_eq_getElem _ _ hjj]; exact List.getElem_mem _
  have h0 : (0 : Int) ≤ A.colIndices.getD jj (-1) := (hci _ hmem).1
  have h1 : A.colIndices.getD jj (-1) < (A.colMap.gids.length : Int) := (hci _ hmem).2
  have hlt : (A.colIndices.getD jj (-1)).toNat < A.colMap.gids.length := by omega
  simp only [Map.getGlobalElement, h0, if_true]
  rw [List.getD_eq_getElem _ _ hlt]
  exact List.getElem_mem _

theorem rowSum_eq_entry {K : Type} [Field K] (A : Matrix K)
    (hA : A.wellFormedCrs) (hS : A.singleProcessSquare) (r c : Nat)
    (hr : r < A.rowMap.gids.length) (hc : c < A.rowMap.gids.length) :
    rowSum A A.rowMap r c = A.entry r (A.rowMap.gids.getD c (-1)) := by
  obtain ⟨_, hrp, hrp', _, hci⟩ := hA
  obtain ⟨_, _, hnd, hsub⟩ := hS
  unfold rowSum addSum Matrix.entry
  congr 1
  apply List.map_congr_left
  intro jj hjj
  have hhi : A.rowPointers.getD (r + 1) 0 ≤ A.colIndices.length := by
    apply hrp'
    rw [List.getD_eq_getElem _ 0 (by omega)]
    exact List.getElem_mem _
  have hlt : jj < A.colIndices.length := by
    have h1 := (List.mem_range'_1.mp hjj).1
    have h2 := (List.mem_range'_1.mp hjj).2
    omega
  have hmem := hsub _ (getGlobalElement_mem A hci jj hlt)
  simp only [addTerm, localColumn, getLocalElement_eq_iff A.rowMap hnd _ hmem c hc]

theorem succ_lt_SIZE_MOD_of_sq {M : Nat} (h : M * M < SIZE_MOD) : M + 1 < SIZE_MOD := by
  have hS : SIZE_MOD = 18446744073709551616 := by norm_num [SIZE_MOD]
  rw [hS] at h ⊢
  rcases Nat.lt_or_ge M 2 with h2 | h2
  · omega
  · nlinarith

/-- On a single process the nullspace fix returns, whatever the norm of the vector and
whatever the division returns: position `i * M + j` of the values holds the product of
line 213 plus the entry of `A`. -/
theorem fixNullspace_single_process {K H : Type} [Field K] (ext : Externals K H)
    (A : Matrix K) (Nullspace : MultiVector K) (n : List K)
    (hA : A.wellFormedCrs) (hS : A.singleProcessSquare)
    (hsize : A.rowMap.globalNumElements * A.rowMap.globalNumElements < SIZE_MOD)
    (hns : Nullspace.cols = [n]) (hlen : n.length = A.rowMap.globalNumElements) :
    ∃ newA, (fixNullspace ext A Nullspace).2 = .ok newA ∧
      ∀ i j, i < A.rowMap.globalNumElements → j < A.rowMap.globalNumElements →
        newA.values[i * A.rowMap.globalNumElements + j]? =
          some (formValue ext (ext.divide 1 (ext.norm2 n * ext.norm2 n)) n n i j +
            A.entry i (A.rowMap.gids.getD j (-1))) := by
  obtain ⟨hcrs, hrp, hrp', hval, hci⟩ := hA
  obtain ⟨hcomm, hM, hnd, hsub⟩ := hS
  have hcol : ∀ jj, jj < A.colIndices.length →
      ∃ k : Nat, k < A.rowMap.globalNumElements ∧ localColumn A A.rowMap jj = (k : Int) := by
    intro jj hjj
    obtain ⟨k, hk, hloc, _⟩ := getLocalElement_of_mem A.rowMap _
      (hsub _ (getGlobalElement_mem A hci jj hjj))
    exact ⟨k, by omega, hloc⟩
  obtain ⟨newA, hb, _, _, _, _, _, _, hv⟩ := buildNewA_ok ext A Nullspace Nullspace A.rowMap
    none n n hcrs (by rw [← hM]; exact hsize)
    (by rw [← hM]; exact succ_lt_SIZE_MOD_of_sq hsize)
    (by simp [hns]) (by simp [hns]) (by omega) (by omega) hcol (by omega) hrp hrp'
  refine ⟨newA, ?_, ?_⟩
  · have h1 : ¬ Nullspace.getNumVectors > 1 := by simp [MultiVector.getNumVectors, hns]
    have h2 : ¬ A.rowMap.commSize > 1 := by omega
    simp only [fixNullspace, h1, h2, if_false]
    exact hb
  · intro i j hi hj
    rw [(hv i j (by omega) hj).2,
      rowSum_eq_entry A ⟨hcrs, hrp, hrp', hval, hci⟩ ⟨hcomm, hM, hnd, hsub⟩ i j
        (by omega) (by omega)]

/-- A call of `Setup` with "fix nullspace" set in which the nullspace fix, the conversion,
`create` and the parameter list all return: no exception, the solver object with its
parameters set is in `prec_`, and `IsSetup()` is true. -/
theorem Setup_of_fixNullspace_ok {K H : Type} [Field K] (ext : Externals K H)
    (s : Amesos2Smoother K H) (lvl : Level K) (newA tA : Matrix K) (h : H) (p : Amesos2List)
    (hfix : s.paramList.fixNullspace = true)
    (h1 : (fixNullspace ext lvl.A lvl.Nullspace).2 = .ok newA)
    (h2 : ext.Op2NonConstTpetraCrs newA = .ok tA)
    (h3 : ext.create s.type_ tA = some h)
    (h4 : amesos2Parameters ext lvl.A.rowMap h s.paramList = .ok p) :
    (Setup ext s lvl).error = none ∧
      (Setup ext s lvl).smoother =
        { s with prec_ := some (ext.setParameters h p), isSetup := true } := by
  simp only [Setup, hfix, if_true, h1, h2, h3, h4, and_self]

/-! ## Theorems on Setup -/

/-- C1: on a single process, for an `M x M` operator in CSR form whose column map is over
global indices of the row map, and a single nullspace vector `n` of non-zero norm, in exact
arithmetic, the nullspace fix returns, and position `i * M + j` of the value array it
builds, the entry of row `i` and of the column whose global index is the `j`-th of the
row map, holds `A[i][j] + n[i] * conj(n[j]) / (sum_k n[k] * conj(n[k]))`; the solver of
`Setup` is created from the operator with these values. -/
theorem fixNullspace_values {K H : Type} [Field K] (ext : Externals K H) (A : Matrix K)
    (Nullspace : MultiVector K) (n : List K)
    (hA : A.wellFormedCrs) (hS : A.singleProcessSquare)
    (hsize : A.rowMap.globalNumElements * A.rowMap.globalNumElements < SIZE_MOD)
    (hns : Nullspace.cols = [n]) (hlen : n.length = A.rowMap.globalNumElements)
    (hnorm : ext.norm2 n * ext.norm2 n = (n.map (fun x => x * ext.conjugate x)).sum)
    (hne : ext.norm2 n ≠ 0)
    (hdiv : ∀ a b : K, b ≠ 0 → ext.divide a b = a / b) :
    ∃ newA, (fixNullspace ext A Nullspace).2 = .ok newA ∧
      (∀ i j, i < A.rowMap.globalNumElements → j < A.rowMap.globalNumElements →
        newA.values[i * A.rowMap.globalNumElements + j]? =
          some (A.entry i (A.rowMap.gids.getD j (-1)) +
            n.getD i 0 * ext.conjugate (n.getD j 0) /
              (n.map (fun x => x * ext.conjugate x)).sum)) ∧
      (∀ (s : Amesos2Smoother K H) tA h p, s.paramList.fixNullspace = true →
        ext.Op2NonConstTpetraCrs newA = .ok tA → ext.create s.type_ tA = some h →
        amesos2Parameters ext A.rowMap h s.paramList = .ok p →
        (Setup ext s ⟨A, Nullspace⟩).error = none ∧
        (Setup ext s ⟨A, Nullspace⟩).smoother.prec_ = some (ext.setParameters h p)) := by
  obtain ⟨newA, hb, hv⟩ := fixNullspace_single_process ext A Nullspace n hA hS hsize hns hlen
  refine ⟨newA, hb, ?_, ?_⟩
  · intro i j hi hj
    have hsq : ext.norm2 n * ext.norm2 n ≠ 0 := mul_ne_zero hne hne
    have hnz : ext.divide 1 (ext.norm2 n * ext.norm2 n) =
        1 / (n.map (fun x => x * ext.conjugate x)).sum := by
      rw [hdiv _ _ hsq, hnorm]
    rw [hv i j hi hj]
    simp only [formValue, hnz]
    rw [add_comm]
    congr 2
    ring
  · intro s tA h p hfix h2 h3 h4
    obtain ⟨e1, e2⟩ :=
      Setup_of_fixNullspace_ok ext s ⟨A, Nullspace⟩ newA tA h p hfix hb h2 h3 h4
    exact ⟨e1, by rw [e2]⟩

theorem fixNullspace_values_witness :
    (exampleA.wellFormedCrs ∧ exampleA.singleProcessSquare ∧
      exampleA.rowMap.globalNumElements * exampleA.rowMap.globalNumElements < SIZE_MOD ∧
      exampleExt.norm2 [3, 4] * exampleExt.norm2 [3, 4] =
        (([3, 4] : List ℚ).map (fun x => x * exampleExt.conjugate x)).sum ∧
      exampleExt.norm2 [3, 4] ≠ 0) ∧
    ∃ newA, (fixNullspace exampleExt exampleA ⟨2, [[3, 4]]⟩).2 = .ok newA ∧
      (∀ i j, i < exampleA.rowMap.globalNumElements → j < exampleA.rowMap.globalNumElements →
        newA.values[i * exampleA.rowMap.globalNumElements + j]? =
          some (exampleA.entry i (exampleA.rowMap.gids.getD j (-1)) +
            ([3, 4] : List ℚ).getD i 0 * exampleExt.conjugate (([3, 4] : List ℚ).getD j 0) /
              (([3, 4] : List ℚ).map (fun x => x * exampleExt.conjugate x)).sum)) ∧
      (∀ (s : Amesos2Smoother ℚ (List Char × Matrix ℚ × Option Amesos2List)) tA h p,
        s.paramList.fixNullspace = true →
        exampleExt.Op2NonConstTpetraCrs newA = .ok tA → exampleExt.create s.type_ tA = some h →
        amesos2Parameters exampleExt exampleA.rowMap h s.paramList = .ok p →
        (Setup exampleExt s ⟨exampleA, ⟨2, [[3, 4]]⟩⟩).error = none ∧
        (Setup exampleExt s ⟨exampleA, ⟨2, [[3, 4]]⟩⟩).smoother.prec_ =
          some (exampleExt.setParameters h p)) :=
  have hA : exampleA.wellFormedCrs := by
    simp [Matrix.wellFormedCrs, exampleA, exampleRowMap]
  have hS : exampleA.singleProcessSquare := by
    simp [Matrix.singleProcessSquare, exampleA, exampleRowMap]
  have hsize : exampleA.rowMap.globalNumElements * exampleA.rowMap.globalNumElements
      < SIZE_MOD := by
    norm_num [exampleA, exampleRowMap, SIZE_MOD]
  have hne : exampleExt.norm2 [3, 4] ≠ 0 := by norm_num [exampleExt]
  have hnorm : exampleExt.norm2 [3, 4] * exampleExt.norm2 [3, 4] =
      (([3, 4] : List ℚ).map (fun x => x * exampleExt.conjugate x)).sum := by
    norm_num [exampleExt]
  ⟨⟨hA, hS, hsize, hnorm, hne⟩,
    fixNullspace_values exampleExt exampleA ⟨2, [[3, 4]]⟩ [3, 4] hA hS hsize rfl rfl
      hnorm hne (fun _ _ _ => rfl)⟩


/-- C6: with "fix nullspace" set and a nullspace of two or more columns, `Setup` ends with
the RuntimeError "not implemented" of line 154; the nullspace fix returns no operator and
the smoother, its solver handle included, is as it was before the call. -/
theorem Setup_multi_column_nullspace {K H : Type} [Field K] (ext : Externals K H)
    (s : Amesos2Smoother K H) (currentLevel : Level K)
    (hfix : s.paramList.fixNullspace = true)
    (hcols : 2 ≤ currentLevel.Nullspace.getNumVectors) :
    (Setup ext s currentLevel).error = some (.RuntimeError multiNullspaceMessage) ∧
      (fixNullspace ext currentLevel.A currentLevel.Nullspace).2 =
        .error (.RuntimeError multiNullspaceMessage) ∧
      (Setup ext s currentLevel).smoother = s := by
  have h : currentLevel.Nullspace.getNumVectors > 1 := by omega
  have hf : (fixNullspace ext currentLevel.A currentLevel.Nullspace).2 =
      .error (.RuntimeError multiNullspaceMessage) := by
    simp only [fixNullspace, h, if_true]
  refine ⟨?_, hf, ?_⟩ <;> simp only [Setup, hfix, if_true, hf]

theorem Setup_multi_column_nullspace_witness :
    (exampleSmoother.paramList.fixNullspace = true ∧
      2 ≤ (⟨2, [[3, 4], [1, 1]]⟩ : MultiVector ℚ).getNumVectors) ∧
    ((Setup exampleExt exampleSmoother ⟨exampleA, ⟨2, [[3, 4], [1, 1]]⟩⟩).error =
        some (.RuntimeError multiNullspaceMessage) ∧
      (fixNullspace exampleExt exampleA ⟨2, [[3, 4], [1, 1]]⟩).2 =
        .error (.RuntimeError multiNullspaceMessage) ∧
      (Setup exampleExt exampleSmoother ⟨exampleA, ⟨2, [[3, 4], [1, 1]]⟩⟩).smoother =
        exampleSmoother) :=
  ⟨⟨rfl, by decide⟩,
    Setup_multi_column_nullspace exampleExt exampleSmoother
      ⟨exampleA, ⟨2, [[3, 4], [1, 1]]⟩⟩ rfl (by decide)⟩

/-- For a row map whose global indices are contiguous, the list handed to the solver is the
"Amesos2" sublist of the user, named "Amesos2". -/
theorem amesos2Parameters_contiguous {K H : Type} (ext : Externals K H) (rowMap : Map)
    (prec : H) (pL : ParameterList)
    (h : rowMap.globalNumElements =
      szOfInt ((rowMap.maxAllGlobalIndex - rowMap.minAllGlobalIndex) + 1)) :
    amesos2Parameters ext rowMap prec pL =
      .ok { pL.Amesos2 with name := "Amesos2".toList } := by
  simp only [amesos2Parameters, ne_eq, h, not_true_eq_false, if_false]

theorem exampleRowMap_contiguous :
    exampleRowMap.globalNumElements =
      szOfInt ((exampleRowMap.maxAllGlobalIndex - exampleRowMap.minAllGlobalIndex) + 1) := by
  decide

/-- C7, as the code has it: `Setup` does not test the norm. For a single nullspace vector
whose 2-norm is zero (single process, operator in CSR form), the nullspace fix returns
the corrected operator, its values computed with the factor the scalar division returns
for `1 / (0 * 0)`, and `Setup` goes on as for any other vector: when the conversion,
`create` and the parameter list return, it ends without exception, set up. -/
theorem Setup_zero_norm_no_error {K H : Type} [Field K] (ext : Externals K H)
    (s : Amesos2Smoother K H) (A : Matrix K) (Nullspace : MultiVector K) (n : List K)
    (hfix : s.paramList.fixNullspace = true)
    (hA : A.wellFormedCrs) (hS : A.singleProcessSquare)
    (hsize : A.rowMap.globalNumElements * A.rowMap.globalNumElements < SIZE_MOD)
    (hns : Nullspace.cols = [n]) (hlen : n.length = A.rowMap.globalNumElements)
    (hzero : ext.norm2 n = 0) :
    ∃ newA, (fixNullspace ext A Nullspace).2 = .ok newA ∧
      (∀ i j, i < A.rowMap.globalNumElements → j < A.rowMap.globalNumElements →
        newA.values[i * A.rowMap.globalNumElements + j]? =
          some (ext.divide 1 (0 * 0) * n.getD i 0 * ext.conjugate (n.getD j 0) +
            A.entry i (A.rowMap.gids.getD j (-1)))) ∧
      (∀ tA h p, ext.Op2NonConstTpetraCrs newA = .ok tA → ext.create s.type_ tA = some h →
        amesos2Parameters ext A.rowMap h s.paramList = .ok p →
        (Setup ext s ⟨A, Nullspace⟩).error = none ∧
        (Setup ext s ⟨A, Nullspace⟩).smoother.prec_ = some (ext.setParameters h p) ∧
        (Setup ext s ⟨A, Nullspace⟩).smoother.isSetup = true) := by
  obtain ⟨newA, hb, hv⟩ := fixNullspace_single_process ext A Nullspace n hA hS hsize hns hlen
  refine ⟨newA, hb, ?_, ?_⟩
  · intro i j hi hj
    rw [hv i j hi hj, hzero]
    rfl
  · intro tA h p h2 h3 h4
    obtain ⟨e1, e2⟩ := Setup_of_fixNullspace_ok ext s ⟨A, Nullspace⟩ newA tA h p hfix hb h2 h3 h4
    exact ⟨e1, by rw [e2], by rw [e2]⟩

theorem Setup_zero_norm_no_error_witness :
    (exampleSmoother.paramList.fixNullspace = true ∧ exampleA.wellFormedCrs ∧
      exampleA.singleProcessSquare ∧ zeroNormExt.norm2 [0, 0] = 0) ∧
    ∃ newA, (fixNullspace zeroNormExt exampleA ⟨2, [[0, 0]]⟩).2 = .ok newA ∧
      (∀ i j, i < exampleA.rowMap.globalNumElements → j < exampleA.rowMap.globalNumElements →
        newA.values[i * exampleA.rowMap.globalNumElements + j]? =
          some (zeroNormExt.divide 1 (0 * 0) * ([0, 0] : List ℚ).getD i 0 *
              zeroNormExt.conjugate (([0, 0] : List ℚ).getD j 0) +
            exampleA.entry i (exampleA.rowMap.gids.getD j (-1)))) ∧
      (∀ tA h p, zeroNormExt.Op2NonConstTpetraCrs newA = .ok tA →
        zeroNormExt.create exampleSmoother.type_ tA = some h →
        amesos2Parameters zeroNormExt exampleA.rowMap h exampleSmoother.paramList = .ok p →
        (Setup zeroNormExt exampleSmoother ⟨exampleA, ⟨2, [[0, 0]]⟩⟩).error = none ∧
        (Setup zeroNormExt exampleSmoother ⟨exampleA, ⟨2, [[0, 0]]⟩⟩).smoother.prec_ =
          some (zeroNormExt.setParameters h p) ∧
        (Setup zeroNormExt exampleSmoother ⟨exampleA, ⟨2, [[0, 0]]⟩⟩).smoother.isSetup = true) :=
  have hA : exampleA.wellFormedCrs := by
    simp [Matrix.wellFormedCrs, exampleA, exampleRowMap]
  have hS : exampleA.singleProcessSquare := by
    simp [Matrix.singleProcessSquare, exampleA, exampleRowMap]
  ⟨⟨rfl, hA, hS, rfl⟩,
    Setup_zero_norm_no_error zeroNormExt exampleSmoother exampleA ⟨2, [[0, 0]]⟩ [0, 0] rfl hA hS
      (by norm_num [exampleA, exampleRowMap, SIZE_MOD]) rfl rfl rfl⟩

/-- C7, counterexample: for the operator `exampleA` and the nullspace vector `(0, 0)`,
whose 2-norm is zero, `Setup` with "fix nullspace" set ends without exception and leaves
the smoother set up with a solver object. -/
theorem Setup_zero_norm_counterexample :
    zeroNormExt.norm2 [0, 0] = 0 ∧ exampleSmoother.paramList.fixNullspace = true ∧
      (Setup zeroNormExt exampleSmoother ⟨exampleA, ⟨2, [[0, 0]]⟩⟩).error = none ∧
      (Setup zeroNormExt exampleSmoother ⟨exampleA, ⟨2, [[0, 0]]⟩⟩).smoother.isSetup = true ∧
      (Setup zeroNormExt exampleSmoother ⟨exampleA, ⟨2, [[0, 0]]⟩⟩).smoother.prec_ ≠ none := by
  have hA : exampleA.wellFormedCrs := by
    simp [Matrix.wellFormedCrs, exampleA, exampleRowMap]
  have hS : exampleA.singleProcessSquare := by
    simp [Matrix.singleProcessSquare, exampleA, exampleRowMap]
  obtain ⟨newA, hb, _⟩ := fixNullspace_single_process zeroNormExt exampleA ⟨2, [[0, 0]]⟩ [0, 0]
    hA hS (by norm_num [exampleA, exampleRowMap, SIZE_MOD]) rfl rfl
  obtain ⟨e1, e2⟩ := Setup_of_fixNullspace_ok zeroNormExt exampleSmoother
    ⟨exampleA, ⟨2, [[0, 0]]⟩⟩ newA newA (exampleSmoother.type_, newA, none)
    ⟨"Amesos2".toList, []⟩ rfl hb rfl rfl
    (amesos2Parameters_contiguous zeroNormExt exampleRowMap _ _ exampleRowMap_contiguous)
  refine ⟨rfl, rfl, e1, ?_, ?_⟩
  · rw [e2]
  · rw [e2]; simp

/-- C8: `Apply` on a smoother whose `IsSetup()` is false ends with the RuntimeError
"Setup() has not been called", makes no call of the solver, and leaves `X` and the
smoother, its private vectors included, as they were. -/
theorem Apply_before_Setup {K H : Type} (ext : Externals K H) (s : Amesos2Smoother K H)
    (X B : MultiVector K) (h : s.isSetup = false) :
    (Apply ext s X B).error = some (.RuntimeError notSetupMessage) ∧
      (Apply ext s X B).solves = [] ∧
      (Apply ext s X B).X = X ∧
      (Apply ext s X B).smoother = s := by
  simp [Apply, h]

theorem Apply_before_Setup_witness :
    exampleSmoother.isSetup = false ∧
    ((Apply exampleExt exampleSmoother ⟨2, [[1, 2]]⟩ ⟨2, [[5, 6]]⟩).error =
        some (.RuntimeError notSetupMessage) ∧
      (Apply exampleExt exampleSmoother ⟨2, [[1, 2]]⟩ ⟨2, [[5, 6]]⟩).solves = [] ∧
      (Apply exampleExt exampleSmoother ⟨2, [[1, 2]]⟩ ⟨2, [[5, 6]]⟩).X = ⟨2, [[1, 2]]⟩ ∧
      (Apply exampleExt exampleSmoother ⟨2, [[1, 2]]⟩ ⟨2, [[5, 6]]⟩).smoother =
        exampleSmoother) :=
  ⟨rfl, Apply_before_Setup exampleExt exampleSmoother ⟨2, [[1, 2]]⟩ ⟨2, [[5, 6]]⟩ rfl⟩

/-! ## Lemmas on Setup and Apply -/

theorem fixNullspace_log {K H : Type} [Field K] (ext : Externals K H) (A : Matrix K)
    (Nullspace : MultiVector K) : alreadyCalledWarning ∉ (fixNullspace ext A Nullspace).1 := by
  have h1 : alreadyCalledWarning ≠
      ⟨MsgType.Runtime1, "MueLu::Amesos2Smoother::Setup(): fixing nullspace".toList⟩ := by
    decide
  have h2 : alreadyCalledWarning ≠
      ⟨MsgType.Warnings0, ("MueLu::Amesos2Smoother::Setup(): Applying nullspace fix on " ++
        "distributed matrix. Try rebalancing to single rank!").toList⟩ := by
    decide
  unfold fixNullspace
  simp only
  split
  · simpa using h1
  · split
    · simp only [List.mem_append, List.mem_singleton, not_or]
      exact ⟨h1, h2⟩
    · simpa using h1

/-- The calls of `Setup` that end without exception: everything up to the conversion
returned an operator, `create` returned a solver object, the parameter list was built, and
the smoother holds that solver object with its parameters set. -/
theorem Setup_error_none {K H : Type} [Field K] (ext : Externals K H)
    (s : Amesos2Smoother K H) (lvl : Level K) (h : (Setup ext s lvl).error = none) :
    ∃ tA prec p, tpetraOperator ext s.paramList lvl = .ok tA ∧
      ext.create s.type_ tA = some prec ∧
      amesos2Parameters ext lvl.A.rowMap prec s.paramList = .ok p ∧
      (Setup ext s lvl).smoother =
        { s with prec_ := some (ext.setParameters prec p), isSetup := true } ∧
      (Setup ext s lvl).log = (if s.isSetup = true then [alreadyCalledWarning] else []) ++
        (if s.paramList.fixNullspace then (fixNullspace ext lvl.A lvl.Nullspace).1 else []) := by
  unfold Setup at h ⊢
  unfold tpetraOperator
  cases hfix : s.paramList.fixNullspace
  · simp only [hfix, Bool.false_eq_true, if_false] at h ⊢
    cases h1 : ext.Op2NonConstTpetraCrs lvl.A with
    | error e => simp [h1] at h
    | ok tA =>
      simp only [h1] at h ⊢
      cases h2 : ext.create s.type_ tA with
      | none => simp [h2] at h
      | some prec =>
        simp only [h2] at h ⊢
        cases h3 : amesos2Parameters ext lvl.A.rowMap prec s.paramList with
        | error e => simp [h3] at h
        | ok p => exact ⟨tA, prec, p, rfl, h2, h3, rfl, rfl⟩
  · simp only [hfix, if_true] at h ⊢
    cases h0 : (fixNullspace ext lvl.A lvl.Nullspace).2 with
    | error e => simp [h0] at h
    | ok factorA =>
      simp only [h0] at h ⊢
      cases h1 : ext.Op2NonConstTpetraCrs factorA with
      | error e => simp [h1] at h
      | ok tA =>
        simp only [h1] at h ⊢
        cases h2 : ext.create s.type_ tA with
        | none => simp [h2] at h
        | some prec =>
          simp only [h2] at h ⊢
          cases h3 : amesos2Parameters ext lvl.A.rowMap prec s.paramList with
          | error e => simp [h3] at h
          | ok p => exact ⟨tA, prec, p, rfl, h2, h3, rfl, rfl⟩

theorem applyTransformed_solves {K H : Type} (ext : Externals K H) (s : Amesos2Smoother K H)
    (X B : MultiVector K) :
    ∀ e ∈ (applyTransformed ext s X B).solves, s.prec_ = some e.1 := by
  unfold applyTransformed
  simp only
  repeat' split
  all_goals simp_all

/-- Every call of `solve()` that `Apply` makes is made on the solver object in `prec_`. -/
theorem Apply_solves {K H : Type} (ext : Externals K H) (s : Amesos2Smoother K H)
    (X B : MultiVector K) :
    ∀ e ∈ (Apply ext s X B).solves, s.prec_ = some e.1 := by
  unfold Apply
  split
  · simp
  · split
    · split <;> simp_all
    · exact applyTransformed_solves ext s X B

/-- `Apply` on the direct path: one call of `solve()` on the caller's vectors. -/
theorem Apply_direct {K H : Type} (ext : Externals K H) (s : Amesos2Smoother K H)
    (X B : MultiVector K) (prec : H) (h1 : s.isSetup = true)
    (h2 : s.useTransformation_ = false) (h3 : s.prec_ = some prec) :
    (Apply ext s X B).error = none ∧ (Apply ext s X B).solves = [(prec, X, B)] ∧
      (Apply ext s X B).X = ext.solve prec X B := by
  simp [Apply, h1, h2, h3]

/-- C9, as the code has it: two calls of `Setup` in sequence on one smoother that both
end without exception. The first call writes the warning "Setup() has already been called"
exactly when `IsSetup()` was true before it, so not on a smoother as constructed, and the
second call writes it; after the second call `IsSetup()` is true and `prec_` is the solver
object the second call created from its own operator (corrected when "fix nullspace" is
set), with the parameters of the second call, so that every solve of a following `Apply`
is made on that object. -/
theorem Setup_twice {K H : Type} [Field K] (ext : Externals K H) (s : Amesos2Smoother K H)
    (L1 L2 : Level K)
    (h1 : (Setup ext s L1).error = none)
    (h2 : (Setup ext (Setup ext s L1).smoother L2).error = none) :
    (alreadyCalledWarning ∈ (Setup ext s L1).log ↔ s.isSetup = true) ∧
    alreadyCalledWarning ∈ (Setup ext (Setup ext s L1).smoother L2).log ∧
    (Setup ext (Setup ext s L1).smoother L2).smoother.isSetup = true ∧
    ∃ tA prec p, tpetraOperator ext s.paramList L2 = .ok tA ∧
      ext.create s.type_ tA = some prec ∧
      amesos2Parameters ext L2.A.rowMap prec s.paramList = .ok p ∧
      (Setup ext (Setup ext s L1).smoother L2).smoother.prec_ =
        some (ext.setParameters prec p) ∧
      (∀ X B, ∀ e ∈ (Apply ext (Setup ext (Setup ext s L1).smoother L2).smoother X B).solves,
        e.1 = ext.setParameters prec p) ∧
      (s.useTransformation_ = false → ∀ X B,
        (Apply ext (Setup ext (Setup ext s L1).smoother L2).smoother X B).error = none ∧
        (Apply ext (Setup ext (Setup ext s L1).smoother L2).smoother X B).X =
          ext.solve (ext.setParameters prec p) X B) ∧
      (∀ cfg type paramList,
        (Amesos2Smoother.new ext cfg type paramList : Amesos2Smoother K H).isSetup = false) := by
  obtain ⟨tA1, prec1, p1, a1, a2, a3, a4, a5⟩ := Setup_error_none ext s L1 h1
  obtain ⟨tA, prec, p, b1, b2, b3, b4, b5⟩ :=
    Setup_error_none ext (Setup ext s L1).smoother L2 h2
  have e1 : (Setup ext s L1).smoother.type_ = s.type_ := by rw [a4]
  have e2 : (Setup ext s L1).smoother.paramList = s.paramList := by rw [a4]
  have e3 : (Setup ext s L1).smoother.isSetup = true := by rw [a4]
  have e4 : (Setup ext s L1).smoother.useTransformation_ = s.useTransformation_ := by rw [a4]
  rw [e2] at b1 b3
  rw [e1] at b2
  rw [e2, e3] at b5
  refine ⟨?_, ?_, by rw [b4], tA, prec, p, b1, b2, b3, by rw [b4], ?_, ?_,
    fun _ _ _ => rfl⟩
  · rw [a5]
    have hfix : alreadyCalledWarning ∉
        (if s.paramList.fixNullspace = true then (fixNullspace ext L1.A L1.Nullspace).1
          else []) := by
      split
      · exact fixNullspace_log ext L1.A L1.Nullspace
      · simp
    cases h0 : s.isSetup with
    | false =>
      simp only [Bool.false_eq_true, if_false, List.nil_append, iff_false]
      exact hfix
    | true => simp
  · rw [b5]
    simp
  · intro X B e he
    have := Apply_solves ext _ X B e he
    rw [b4] at this
    simp only [Option.some.injEq] at this
    exact this.symm
  · intro hT X B
    have hd := Apply_direct ext (Setup ext (Setup ext s L1).smoother L2).smoother X B
      (ext.setParameters prec p) (by rw [b4]) (by rw [b4]; exact e4.trans hT) (by rw [b4])
    exact ⟨hd.1, hd.2.2⟩

theorem Setup_twice_witness :
    ((Setup exampleExt plainSmoother ⟨exampleA, ⟨2, [[3, 4]]⟩⟩).error = none ∧
      (Setup exampleExt (Setup exampleExt plainSmoother ⟨exampleA, ⟨2, [[3, 4]]⟩⟩).smoother
        ⟨exampleA, ⟨2, [[1, 1]]⟩⟩).error = none) ∧
    ((alreadyCalledWarning ∈ (Setup exampleExt plainSmoother ⟨exampleA, ⟨2, [[3, 4]]⟩⟩).log ↔
        plainSmoother.isSetup = true) ∧
    alreadyCalledWarning ∈
      (Setup exampleExt (Setup exampleExt plainSmoother ⟨exampleA, ⟨2, [[3, 4]]⟩⟩).smoother
        ⟨exampleA, ⟨2, [[1, 1]]⟩⟩).log) :=
  have h1 : (Setup exampleExt plainSmoother ⟨exampleA, ⟨2, [[3, 4]]⟩⟩).error = none := rfl
  have h2 : (Setup exampleExt
      (Setup exampleExt plainSmoother ⟨exampleA, ⟨2, [[3, 4]]⟩⟩).smoother
      ⟨exampleA, ⟨2, [[1, 1]]⟩⟩).error = none := rfl
  have h := Setup_twice exampleExt plainSmoother ⟨exampleA, ⟨2, [[3, 4]]⟩⟩
    ⟨exampleA, ⟨2, [[1, 1]]⟩⟩ h1 h2
  ⟨⟨h1, h2⟩, h.1, h.2.1⟩

/-- C9, counterexample: `setUpSmoother` is `plainSmoother` after a first call of `Setup`.
The second and the third call on it both end without exception, and the second, the first
of this pair, writes the warning. The same holds for the first call of `Setup` on a copy
of `setUpSmoother`. -/
theorem Setup_pair_first_warns_counterexample :
    (Setup exampleExt setUpSmoother ⟨exampleA, ⟨2, [[1, 1]]⟩⟩).error = none ∧
    (Setup exampleExt (Setup exampleExt setUpSmoother ⟨exampleA, ⟨2, [[1, 1]]⟩⟩).smoother
      ⟨exampleA, ⟨2, [[3, 4]]⟩⟩).error = none ∧
    alreadyCalledWarning ∈ (Setup exampleExt setUpSmoother ⟨exampleA, ⟨2, [[1, 1]]⟩⟩).log ∧
    (Setup exampleExt (Copy setUpSmoother) ⟨exampleA, ⟨2, [[1, 1]]⟩⟩).error = none ∧
    (Setup exampleExt (Setup exampleExt (Copy setUpSmoother) ⟨exampleA, ⟨2, [[1, 1]]⟩⟩).smoother
      ⟨exampleA, ⟨2, [[3, 4]]⟩⟩).error = none ∧
    alreadyCalledWarning ∈
      (Setup exampleExt (Copy setUpSmoother) ⟨exampleA, ⟨2, [[1, 1]]⟩⟩).log := by
  have h1 : (Setup exampleExt setUpSmoother ⟨exampleA, ⟨2, [[1, 1]]⟩⟩).log =
      [alreadyCalledWarning] := rfl
  have h2 : (Setup exampleExt (Copy setUpSmoother) ⟨exampleA, ⟨2, [[1, 1]]⟩⟩).log =
      [alreadyCalledWarning] := rfl
  refine ⟨rfl, rfl, ?_, rfl, rfl, ?_⟩
  · rw [h1]; exact List.mem_singleton.mpr rfl
  · rw [h2]; exact List.mem_singleton.mpr rfl

/-- A call of `Setup` that ends before line 242, with an exception of the nullspace fix or
of the conversion, leaves the smoother as it was. -/
theorem Setup_tpetraOperator_error {K H : Type} [Field K] (ext : Externals K H)
    (s : Amesos2Smoother K H) (lvl : Level K) (e : Exception)
    (h : tpetraOperator ext s.paramList lvl = .error e) :
    (Setup ext s lvl).smoother = s ∧ (Setup ext s lvl).error = some e := by
  unfold tpetraOperator at h
  unfold Setup
  cases hfix : s.paramList.fixNullspace
  · simp only [hfix, Bool.false_eq_true, if_false] at h ⊢
    simp only [h, and_self]
  · simp only [hfix, if_true] at h ⊢
    cases h0 : (fixNullspace ext lvl.A lvl.Nullspace).2 with
    | error e0 =>
      simp only [h0, Except.error.injEq] at h ⊢
      simp only [h, and_self]
    | ok factorA =>
      simp only [h0] at h ⊢
      simp only [h, and_self]

/-- A call of `Setup` in which `create` returns null ends with the exception of line 243
and leaves `prec_` null. -/
theorem Setup_create_null {K H : Type} [Field K] (ext : Externals K H)
    (s : Amesos2Smoother K H) (lvl : Level K) (tA : Matrix K)
    (h : tpetraOperator ext s.paramList lvl = .ok tA) (hc : ext.create s.type_ tA = none) :
    (Setup ext s lvl).smoother.prec_ = none ∧ (Setup ext s lvl).error ≠ none := by
  unfold tpetraOperator at h
  unfold Setup
  cases hfix : s.paramList.fixNullspace
  · simp only [hfix, Bool.false_eq_true, if_false] at h ⊢
    simp [h, hc]
  · simp only [hfix, if_true] at h ⊢
    cases h0 : (fixNullspace ext lvl.A lvl.Nullspace).2 with
    | error e0 => simp [h0] at h
    | ok factorA =>
      simp only [h0] at h ⊢
      simp [h, hc]

/-- C10, as the code has it: `getNodeSmootherComplexity` returns the count of the
solver object in `prec_`, and zero when `prec_` is null. It is zero after construction;
after a call of `Setup` that ended without exception it is the count of the solver
object that call created; a call of `Setup` that ends before `create` leaves it as it
was, and one in which `create` returns null makes it zero; the smoother that `Copy`
returns gives what the original gives. -/
theorem getNodeSmootherComplexity_eq {K H : Type} [Field K] (ext : Externals K H)
    (cfg : Amesos2Config) :
    (∀ s : Amesos2Smoother K H, s.prec_ = none → getNodeSmootherComplexity ext s = 0) ∧
    (∀ (s : Amesos2Smoother K H) (prec : H), s.prec_ = some prec →
      getNodeSmootherComplexity ext s = ext.getNnzLU prec) ∧
    (∀ type paramList,
      getNodeSmootherComplexity ext (Amesos2Smoother.new ext cfg type paramList) = 0) ∧
    (∀ s lvl, (Setup ext s lvl).error = none →
      ∃ tA prec p, tpetraOperator ext s.paramList lvl = .ok tA ∧
        ext.create s.type_ tA = some prec ∧
        amesos2Parameters ext lvl.A.rowMap prec s.paramList = .ok p ∧
        getNodeSmootherComplexity ext (Setup ext s lvl).smoother =
          ext.getNnzLU (ext.setParameters prec p)) ∧
    (∀ s lvl e, tpetraOperator ext s.paramList lvl = .error e →
      getNodeSmootherComplexity ext (Setup ext s lvl).smoother =
        getNodeSmootherComplexity ext s) ∧
    (∀ s lvl tA, tpetraOperator ext s.paramList lvl = .ok tA → ext.create s.type_ tA = none →
      getNodeSmootherComplexity ext (Setup ext s lvl).smoother = 0) ∧
    (∀ s : Amesos2Smoother K H,
      getNodeSmootherComplexity ext (Copy s) = getNodeSmootherComplexity ext s) := by
  refine ⟨?_, ?_, ?_, ?_, ?_, ?_, ?_⟩
  · intro s h
    simp [getNodeSmootherComplexity, h]
  · intro s prec h
    simp [getNodeSmootherComplexity, h]
  · intro type paramList
    simp [getNodeSmootherComplexity, Amesos2Smoother.new]
  · intro s lvl h
    obtain ⟨tA, prec, p, a1, a2, a3, a4, _⟩ := Setup_error_none ext s lvl h
    exact ⟨tA, prec, p, a1, a2, a3, by rw [a4]; rfl⟩
  · intro s lvl e h
    rw [(Setup_tpetraOperator_error ext s lvl e h).1]
  · intro s lvl tA h hc
    simp [getNodeSmootherComplexity, (Setup_create_null ext s lvl tA h hc).1]
  · intro s
    rfl

/-- C10, counterexample: `plainSmoother` is set up on `exampleA` and copied. No call of
`Setup` has been made on the copy, and `getNodeSmootherComplexity` of the copy is 3, the
count of the solver object of the original. -/
theorem getNodeSmootherComplexity_Copy_counterexample :
    (Setup exampleExt plainSmoother ⟨exampleA, ⟨2, [[3, 4]]⟩⟩).error = none ∧
    Reachable exampleExt kluOnly (Copy setUpSmoother) false ∧
    getNodeSmootherComplexity exampleExt (Copy setUpSmoother) = 3 ∧
    ¬ (∀ s, Reachable exampleExt kluOnly s false → getNodeSmootherComplexity exampleExt s = 0) := by
  have hr : Reachable exampleExt kluOnly (Copy setUpSmoother) false :=
    Reachable.copied _ true
      (Reachable.setupSucceeded _ false ⟨exampleA, ⟨2, [[3, 4]]⟩⟩
        (Reachable.constructed "klu".toList ⟨false, ⟨[], []⟩⟩) rfl)
  have hc : getNodeSmootherComplexity exampleExt (Copy setUpSmoother) = 3 := rfl
  refine ⟨rfl, hr, hc, ?_⟩
  intro h
  have := h _ hr
  rw [hc] at this
  exact absurd this (by decide)

theorem copyIn_step {K : Type} (xd bd x0 b0 : List K) (L : Nat)
    (hx : L ≤ xd.length) (hb : L ≤ bd.length) (hx0 : L ≤ x0.length) (hb0 : L ≤ b0.length)
    (i : Nat) (hi : i < L) (d : List K × List K) (hP : CopyInInv xd bd x0 b0 i d) :
    ∃ d', copyIn xd bd i d = .ok d' ∧ CopyInInv xd bd x0 b0 (i + 1) d' := by
  obtain ⟨h1, h2, h3, h4⟩ := hP
  have hxl : i < xd.length := by omega
  have hbl : i < bd.length := by omega
  obtain ⟨x, hxi⟩ : ∃ x, xd[i]? = some x := ⟨xd[i], List.getElem?_eq_getElem hxl⟩
  obtain ⟨b, hbi⟩ : ∃ b, bd[i]? = some b := ⟨bd[i], List.getElem?_eq_getElem hbl⟩
  refine ⟨(d.1.set i x, d.2.set i b), ?_, ?_⟩
  · simp only [copyIn, readAt_of_getElem? hxi, readAt_of_getElem? hbi]
    rw [writeAt_of_lt _ (by omega), writeAt_of_lt _ (by omega)]
  · refine ⟨by simpa using h1, by simpa using h2, ?_, ?_⟩
    · intro k hk
      by_cases hki : k = i
      · subst hki
        simp [List.getElem?_set, h1, h2, hxi, hbi]
        constructor <;> omega
      · have hne : i ≠ k := fun h => hki h.symm
        simp only [List.getElem?_set_ne hne]
        exact h3 k (by omega)
    · intro k hk
      have hne : i ≠ k := by omega
      simp only [List.getElem?_set_ne hne]
      exact h4 k (by omega)

theorem copyIn_loop {K : Type} (xd bd x0 b0 : List K) (L : Nat)
    (hx : L ≤ xd.length) (hb : L ≤ bd.length) (hx0 : L ≤ x0.length) (hb0 : L ≤ b0.length) :
    ∃ d', forLoop (copyIn xd bd) L 0 (x0, b0) = .ok d' ∧ CopyInInv xd bd x0 b0 L d' := by
  have h := forLoop_invariant (copyIn xd bd) (fun i d => CopyInInv xd bd x0 b0 i d) L 0
    (x0, b0) ⟨rfl, rfl, fun k hk => by omega, fun k _ => ⟨rfl, rfl⟩⟩
    (fun i d _ hi hP => copyIn_step xd bd x0 b0 L hx hb hx0 hb0 i (by omega) d hP)
  simpa using h

theorem copyOut_step {K : Type} (sd x0 : List K) (L : Nat)
    (hs : L ≤ sd.length) (hx0 : L ≤ x0.length)
    (i : Nat) (hi : i < L) (d : List K) (hP : CopyOutInv sd x0 i d) :
    ∃ d', copyOut sd i d = .ok d' ∧ CopyOutInv sd x0 (i + 1) d' := by
  obtain ⟨h1, h3, h4⟩ := hP
  have hsl : i < sd.length := by omega
  obtain ⟨x, hsi⟩ : ∃ x, sd[i]? = some x := ⟨sd[i], List.getElem?_eq_getElem hsl⟩
  refine ⟨d.set i x, ?_, ?_⟩
  · simp only [copyOut, readAt_of_getElem? hsi]
    rw [writeAt_of_lt _ (by omega)]
  · refine ⟨by simpa using h1, ?_, ?_⟩
    · intro k hk
      by_cases hki : k = i
      · subst hki
        simp [List.getElem?_set, h1, hsi]
        omega
      · have hne : i ≠ k := fun h => hki h.symm
        simp only [List.getElem?_set_ne hne]
        exact h3 k (by omega)
    · intro k hk
      have hne : i ≠ k := by omega
      simp only [List.getElem?_set_ne hne]
      exact h4 k (by omega)

theorem copyOut_loop {K : Type} (sd x0 : List K) (L : Nat)
    (hs : L ≤ sd.length) (hx0 : L ≤ x0.length) :
    ∃ d', forLoop (copyOut sd) L 0 x0 = .ok d' ∧ CopyOutInv sd x0 L d' := by
  have h := forLoop_invariant (copyOut sd) (fun i d => CopyOutInv sd x0 i d) L 0
    x0 ⟨rfl, fun k hk => by omega, fun k _ => rfl⟩
    (fun i d _ hi hP => copyOut_step sd x0 L hs hx0 i (by omega) d hP)
  simpa using h

/-- `Apply` on the transformed path, for single-column `X` and `B` of local length `L`,
private vectors of at least `L` entries, and a solver that leaves the vector of the
solution its shape. -/
theorem applyTransformed_ok {K H : Type} (ext : Externals K H) (s : Amesos2Smoother K H)
    (X B : MultiVector K) (prec : H) (xd bd x0 b0 : List K) (X_ B_ : MultiVector K)
    (hprec : s.prec_ = some prec)
    (hX : X.cols = [xd]) (hB : B.cols = [bd])
    (hxl : xd.length = X.localLength) (hbl : bd.length = X.localLength)
    (hX_ : s.X_ = some X_) (hB_ : s.B_ = some B_)
    (hx0 : X_.cols[0]? = some x0) (hb0 : B_.cols[0]? = some b0)
    (hx0l : X.localLength ≤ x0.length) (hb0l : X.localLength ≤ b0.length)
    (hsolve : ∀ X' B' d, X'.cols[0]? = some d →
      ∃ d', (ext.solve prec X' B').cols[0]? = some d' ∧ d'.length = d.length) :
    ∃ x1 b1 sd xr,
      (applyTransformed ext s X B).error = none ∧
      (applyTransformed ext s X B).solves = [(prec, X_.setData 0 x1, B_.setData 0 b1)] ∧
      (∀ i, i < X.localLength → x1[i]? = xd[i]? ∧ b1[i]? = bd[i]?) ∧
      (ext.solve prec (X_.setData 0 x1) (B_.setData 0 b1)).cols[0]? = some sd ∧
      (applyTransformed ext s X B).X.cols = [xr] ∧
      (∀ i, i < X.localLength → xr[i]? = sd[i]?) ∧
      (applyTransformed ext s X B).smoother.X_ =
        some (ext.solve prec (X_.setData 0 x1) (B_.setData 0 b1)) ∧
      (applyTransformed ext s X B).smoother.B_ = some (B_.setData 0 b1) := by
  obtain ⟨⟨x1, b1⟩, hin, i1, i2, i3, _⟩ := copyIn_loop xd bd x0 b0 X.localLength
    (by omega) (by omega) hx0l hb0l
  have hx1 : (X_.setData 0 x1).cols[0]? = some x1 := by
    have hpos : 0 < X_.cols.length := by
      rcases hc : X_.cols with _ | ⟨a, l⟩
      · simp [hc] at hx0
      · simp
    simp [MultiVector.setData, List.getElem?_set, hpos]
  obtain ⟨sd, hsd, hsdl⟩ := hsolve (X_.setData 0 x1) (B_.setData 0 b1) x1 hx1
  obtain ⟨xr, hout, o1, o2, _⟩ := copyOut_loop sd xd X.localLength
    (by simp only at i1; omega) (by omega)
  have hnv : ¬ X.getNumVectors > 1 := by simp [MultiVector.getNumVectors, hX]
  have hgX : X.getData 0 = .ok xd := by simp [MultiVector.getData, readAt, hX]
  have hgB : B.getData 0 = .ok bd := by simp [MultiVector.getData, readAt, hB]
  have hgX_ : X_.getData 0 = .ok x0 := by simp [MultiVector.getData, readAt, hx0]
  have hgB_ : B_.getData 0 = .ok b0 := by simp [MultiVector.getData, readAt, hb0]
  have hgs : (ext.solve prec (X_.setData 0 x1) (B_.setData 0 b1)).getData 0 = .ok sd := by
    simp [MultiVector.getData, readAt, hsd]
  have key : applyTransformed ext s X B =
      { X := X.setData 0 xr,
        smoother := { s with X_ := some (ext.solve prec (X_.setData 0 x1) (B_.setData 0 b1)),
                             B_ := some (B_.setData 0 b1) },
        solves := [(prec, X_.setData 0 x1, B_.setData 0 b1)], error := none } := by
    unfold applyTransformed
    simp only [hnv, if_false, hgX, hgB, hX_, hB_, hgX_, hgB_, hin, hprec, hgs, hout]
  rw [key]
  exact ⟨x1, b1, sd, xr, rfl, rfl, i3, hsd, by simp [MultiVector.setData, hX], o2, rfl, rfl⟩

/-- C11: on a set-up smoother with a solver object, when the transformed layout is in
effect, for single-column `X` and `B` of local length `L`, private vectors of at least `L`
entries and a solver that leaves the vector of the solution its shape, `Apply` ends without
exception after one call of `solve()`, made on the private vectors with `X_[i] = X[i]` and
`B_[i] = B[i]` for `i < L`, and on return `X[i]` is the entry `i` of `X_` after the solve
for `i < L`. When the transformed layout is not in effect the one call of `solve()` is made
on the caller's `X` and `B`, the private vectors are left as they are, and the result does
not depend on them. -/
theorem Apply_layout_adapter {K H : Type} (ext : Externals K H) (s : Amesos2Smoother K H)
    (X B : MultiVector K) (prec : H)
    (hsetup : s.isSetup = true) (hprec : s.prec_ = some prec) :
    (s.useTransformation_ = true →
      ∀ (xd bd x0 b0 : List K) (X_ B_ : MultiVector K),
        X.cols = [xd] → B.cols = [bd] → xd.length = X.localLength →
        bd.length = X.localLength → s.X_ = some X_ → s.B_ = some B_ →
        X_.cols[0]? = some x0 → B_.cols[0]? = some b0 →
        X.localLength ≤ x0.length → X.localLength ≤ b0.length →
        (∀ X' B' d, X'.cols[0]? = some d →
          ∃ d', (ext.solve prec X' B').cols[0]? = some d' ∧ d'.length = d.length) →
        ∃ x1 b1 sd xr,
          (Apply ext s X B).error = none ∧
          (Apply ext s X B).solves = [(prec, X_.setData 0 x1, B_.setData 0 b1)] ∧
          (∀ i, i < X.localLength → x1[i]? = xd[i]? ∧ b1[i]? = bd[i]?) ∧
          (ext.solve prec (X_.setData 0 x1) (B_.setData 0 b1)).cols[0]? = some sd ∧
          (Apply ext s X B).X.cols = [xr] ∧
          (∀ i, i < X.localLength → xr[i]? = sd[i]?) ∧
          (Apply ext s X B).smoother.X_ =
            some (ext.solve prec (X_.setData 0 x1) (B_.setData 0 b1)) ∧
          (Apply ext s X B).smoother.B_ = some (B_.setData 0 b1)) ∧
    (s.useTransformation_ = false →
      (Apply ext s X B).error = none ∧
      (Apply ext s X B).solves = [(prec, X, B)] ∧
      (Apply ext s X B).X = ext.solve prec X B ∧
      (Apply ext s X B).smoother = s ∧
      ∀ x b, (Apply ext { s with X_ := x, B_ := b } X B).X = (Apply ext s X B).X ∧
        (Apply ext { s with X_ := x, B_ := b } X B).solves = (Apply ext s X B).solves ∧
        (Apply ext { s with X_ := x, B_ := b } X B).error = (Apply ext s X B).error) := by
  constructor
  · intro hT xd bd x0 b0 X_ B_ hX hB hxl hbl hX_ hB_ hx0 hb0 hx0l hb0l hsolve
    have hA : Apply ext s X B = applyTransformed ext s X B := by
      simp [Apply, hsetup, hT]
    rw [hA]
    exact applyTransformed_ok ext s X B prec xd bd x0 b0 X_ B_ hprec hX hB hxl hbl hX_ hB_
      hx0 hb0 hx0l hb0l hsolve
  · intro hT
    simp [Apply, hsetup, hT, hprec]

theorem Apply_layout_adapter_witness :
    (transformedSmoother.isSetup = true ∧
      transformedSmoother.prec_ =
        some ("Klu".toList, exampleA, some ⟨"Amesos2".toList, []⟩) ∧
      transformedSmoother.useTransformation_ = true) ∧
    ∃ x1 b1 sd xr,
      (Apply exampleExt transformedSmoother ⟨2, [[1, 2]]⟩ ⟨2, [[5, 6]]⟩).error = none ∧
      (Apply exampleExt transformedSmoother ⟨2, [[1, 2]]⟩ ⟨2, [[5, 6]]⟩).solves =
        [(("Klu".toList, exampleA, some ⟨"Amesos2".toList, []⟩),
          MultiVector.setData ⟨2, [[0, 0]]⟩ 0 x1, MultiVector.setData ⟨2, [[0, 0]]⟩ 0 b1)] ∧
      (∀ i, i < 2 → x1[i]? = ([1, 2] : List ℚ)[i]? ∧ b1[i]? = ([5, 6] : List ℚ)[i]?) ∧
      (exampleExt.solve ("Klu".toList, exampleA, some ⟨"Amesos2".toList, []⟩)
        (MultiVector.setData ⟨2, [[0, 0]]⟩ 0 x1)
        (MultiVector.setData ⟨2, [[0, 0]]⟩ 0 b1)).cols[0]? = some sd ∧
      (Apply exampleExt transformedSmoother ⟨2, [[1, 2]]⟩ ⟨2, [[5, 6]]⟩).X.cols = [xr] ∧
      (∀ i, i < 2 → xr[i]? = sd[i]?) ∧
      (Apply exampleExt transformedSmoother ⟨2, [[1, 2]]⟩ ⟨2, [[5, 6]]⟩).smoother.X_ =
        some (exampleExt.solve ("Klu".toList, exampleA, some ⟨"Amesos2".toList, []⟩)
          (MultiVector.setData ⟨2, [[0, 0]]⟩ 0 x1)
          (MultiVector.setData ⟨2, [[0, 0]]⟩ 0 b1)) ∧
      (Apply exampleExt transformedSmoother ⟨2, [[1, 2]]⟩ ⟨2, [[5, 6]]⟩).smoother.B_ =
        some (MultiVector.setData ⟨2, [[0, 0]]⟩ 0 b1) :=
  ⟨⟨rfl, rfl, rfl⟩,
    (Apply_layout_adapter exampleExt transformedSmoother ⟨2, [[1, 2]]⟩ ⟨2, [[5, 6]]⟩
      ("Klu".toList, exampleA, some ⟨"Amesos2".toList, []⟩) rfl rfl).1 rfl
      [1, 2] [5, 6] [0, 0] [0, 0] ⟨2, [[0, 0]]⟩ ⟨2, [[0, 0]]⟩ rfl rfl rfl rfl rfl rfl rfl rfl
      (by decide) (by decide) (fun _ _ d h => ⟨d, h, rfl⟩)⟩

/-- A property that every iteration that does not throw keeps is kept by a loop that
runs to its end. -/
theorem forLoop_preserves {σ : Type} (body : Nat → σ → Except Exception σ) (P : σ → Prop)
    (hbody : ∀ i s s', P s → body i s = .ok s' → P s') :
    ∀ (k lo : Nat) (s s' : σ), P s → forLoop body k lo s = .ok s' → P s' := by
  intro k
  induction k with
  | zero =>
    intro lo s s' h0 h
    simp only [forLoop, Except.ok.injEq] at h
    rw [← h]; exact h0
  | succ k ih =>
    intro lo s s' h0 h
    simp only [forLoop] at h
    cases hb : body lo s with
    | error e => simp [hb] at h
    | ok s1 =>
      simp only [hb] at h
      exact ih (lo + 1) s1 s' (hbody lo s s1 h0 hb) h

theorem writeAt_length {α : Type} (a a' : List α) (i : Nat) (x : α)
    (h : writeAt a i x = .ok a') : a'.length = a.length := by
  unfold writeAt at h
  split at h
  · simp only [Except.ok.injEq] at h
    rw [← h]; simp
  · simp at h

theorem addInner_length {K : Type} [Field K] (A : Matrix K) (colMap : Map) (M i jj L : Nat)
    (v v' : List K) (hv : v.length = L) (h : addInner A colMap M i jj v = .ok v') :
    v'.length = L := by
  unfold addInner at h
  split at h
  · simp only at h
    split at h
    · simp at h
    · rw [writeAt_length _ _ _ _ h, hv]
  · simp at h
  · simp at h

theorem addOuter_length {K : Type} [Field K] (A : Matrix K) (colMap : Map) (M i L : Nat)
    (v v' : List K) (hv : v.length = L) (h : addOuter A colMap M i v = .ok v') :
    v'.length = L := by
  unfold addOuter at h
  split at h
  · exact forLoop_preserves (addInner A colMap M i) (fun v => v.length = L)
      (fun jj s s' hs hb => addInner_length A colMap M i jj L s s' hs hb) _ _ v v' hv h
  · simp at h
  · simp at h

theorem addLoop_length {K : Type} [Field K] (A : Matrix K) (colMap : Map) (N M L : Nat)
    (v v' : List K) (hv : v.length = L) (h : forLoop (addOuter A colMap M) N 0 v = .ok v') :
    v'.length = L :=
  forLoop_preserves (addOuter A colMap M) (fun v => v.length = L)
    (fun i s s' hs hb => addOuter_length A colMap M i L s s' hs hb) N 0 v v' hv h

theorem sum_range'_eq {K : Type} [AddCommMonoid K] (f : Nat → K) (a n : Nat) :
    ((List.range' a n).map f).sum = ∑ k in Finset.range n, f (a + k) := by
  induction n with
  | zero => simp
  | succ n ih =>
    rw [List.range'_concat, List.map_append, List.sum_append, ih, Finset.sum_range_succ]
    simp

theorem sum_range_getD {K : Type} [Field K] (g : K → K) (l : List K) :
    ∑ j in Finset.range l.length, g (l.getD j 0) = (l.map g).sum := by
  induction l with
  | nil => simp
  | cons a l ih =>
    rw [List.length_cons, Finset.sum_range_succ', List.map_cons, List.sum_cons, ← ih, add_comm]
    simp

theorem getLocalElement_getGlobalElement (m : Map) (hnd : m.gids.Nodup) (j : Nat)
    (hj : j < m.gids.length) : m.getLocalElement (m.getGlobalElement (j : Int)) = (j : Int) := by
  have h0 : (0 : Int) ≤ (j : Int) := Int.natCast_nonneg j
  have hg : m.getGlobalElement (j : Int) = m.gids[j] := by
    simp only [Map.getGlobalElement, h0, if_true, Int.toNat_natCast]
    exact List.getD_eq_getElem _ _ hj
  have hmem : m.gids[j] ∈ m.gids := List.getElem_mem _
  rw [hg]
  simp only [Map.getLocalElement, hmem, if_true]
  rw [List.indexOf_getElem hnd j hj]

theorem sum_rowSum_mul {K : Type} [Field K] (A : Matrix K) (n : List K) (M i : Nat)
    (hcol : ∀ jj, jj < A.colIndices.length →
      ∃ k : Nat, k < M ∧ localColumn A A.rowMap jj = (k : Int))
    (hhi : A.rowPointers.getD (i + 1) 0 ≤ A.colIndices.length) :
    ∑ j in Finset.range M, rowSum A A.rowMap i j * n.getD j 0 = A.mulVec n i := by
  unfold rowSum addSum Matrix.mulVec
  simp only [sum_range'_eq, Finset.sum_mul]
  rw [Finset.sum_comm]
  apply Finset.sum_congr rfl
  intro k hk
  have hk' := Finset.mem_range.mp hk
  obtain ⟨l, hl, hloc⟩ := hcol (A.rowPointers.getD i 0 + k) (by omega)
  have hloc' : A.rowMap.getLocalElement (A.colMap.getGlobalElement
      (A.colIndices.getD (A.rowPointers.getD i 0 + k) (-1))) = (l : Int) := hloc
  simp only [addTerm, hloc, hloc', Int.toNat_natCast]
  have hterm : ∀ j ∈ Finset.range M,
      (if (l : Int) = (j : Int) then A.values.getD (A.rowPointers.getD i 0 + k) 0 else 0) *
        n.getD j 0 =
      if l = j then A.values.getD (A.rowPointers.getD i 0 + k) 0 * n.getD j 0 else 0 := by
    intro j _
    by_cases h : l = j
    · simp [h]
    · have : ¬ ((l : Int) = (j : Int)) := fun e => h (by exact_mod_cast e)
      simp [h, this]
  rw [Finset.sum_congr rfl hterm, Finset.sum_ite_eq]
  simp [hl]

theorem sum_formValue_mul {K H : Type} [Field K] (ext : Externals K H) (c : K) (n : List K)
    (i : Nat) :
    ∑ j in Finset.range n.length, formValue ext c n n i j * n.getD j 0 =
      c * n.getD i 0 * (n.map (fun x => x * ext.conjugate x)).sum := by
  rw [← sum_range_getD (fun x => x * ext.conjugate x) n, Finset.mul_sum]
  apply Finset.sum_congr rfl
  intro j _
  simp only [formValue]
  ring

/-- On a single process the nullspace fix returns an operator over the row map whose row
`r` starts at `r * M` and holds, at column `c`, the product of line 213 plus what the
stored entries of row `r` of `A` add to column `c`. -/
theorem fixNullspace_single_process_structure {K H : Type} [Field K] (ext : Externals K H)
    (A : Matrix K) (Nullspace : MultiVector K) (n : List K)
    (hA : A.wellFormedCrs) (hS : A.singleProcessSquare)
    (hsize : A.rowMap.globalNumElements * A.rowMap.globalNumElements < SIZE_MOD)
    (hns : Nullspace.cols = [n]) (hlen : n.length = A.rowMap.globalNumElements) :
    ∃ newA, (fixNullspace ext A Nullspace).2 = .ok newA ∧
      newA.rowMap = A.rowMap ∧ newA.colMap = A.rowMap ∧
      (∀ r, r ≤ A.rowMap.globalNumElements →
        newA.rowPointers[r]? = some (r * A.rowMap.globalNumElements)) ∧
      (∀ r c, r < A.rowMap.globalNumElements → c < A.rowMap.globalNumElements →
        newA.colIndices[r * A.rowMap.globalNumElements + c]? = some (c : Int) ∧
        newA.values[r * A.rowMap.globalNumElements + c]? =
          some (formValue ext (ext.divide 1 (ext.norm2 n * ext.norm2 n)) n n r c +
            rowSum A A.rowMap r c)) := by
  obtain ⟨hcrs, hrp, hrp', hval, hci⟩ := hA
  obtain ⟨hcomm, hM, hnd, hsub⟩ := hS
  have hcol : ∀ jj, jj < A.colIndices.length →
      ∃ k : Nat, k < A.rowMap.globalNumElements ∧ localColumn A A.rowMap jj = (k : Int) := by
    intro jj hjj
    obtain ⟨k, hk, hloc, _⟩ := getLocalElement_of_mem A.rowMap _
      (hsub _ (getGlobalElement_mem A hci jj hjj))
    exact ⟨k, by omega, hloc⟩
  obtain ⟨newA, hb, g1, g2, _, _, _, g6, g7⟩ := buildNewA_ok ext A Nullspace Nullspace A.rowMap
    none n n hcrs (by rw [← hM]; exact hsize)
    (by rw [← hM]; exact succ_lt_SIZE_MOD_of_sq hsize)
    (by simp [hns]) (by simp [hns]) (by omega) (by omega) hcol (by omega) hrp hrp'
  refine ⟨newA, ?_, g1, g2, fun r hr => g6 r (by omega), fun r c hr hc => g7 r c (by omega) hc⟩
  have h1 : ¬ Nullspace.getNumVectors > 1 := by simp [MultiVector.getNumVectors, hns]
  have h2 : ¬ A.rowMap.commSize > 1 := by omega
  simp only [fixNullspace, h1, h2, if_false]
  exact hb

/-- Row `i` of the product of an operator of dense structure over the row map with a
vector, as a sum over the columns. -/
theorem mulVec_dense {K : Type} [Field K] (newA : Matrix K) (n : List K) (M i : Nat)
    (val : Nat → K) (hM : newA.rowMap.gids.length = M) (hnd : newA.rowMap.gids.Nodup)
    (hcm : newA.colMap = newA.rowMap) (hi : i < M)
    (hrp : ∀ r, r ≤ M → newA.rowPointers[r]? = some (r * M))
    (hcv : ∀ c, c < M → newA.colIndices[i * M + c]? = some (c : Int) ∧
      newA.values[i * M + c]? = some (val c)) :
    newA.mulVec n i = ∑ j in Finset.range M, val j * n.getD j 0 := by
  unfold Matrix.mulVec
  have h1 : newA.rowPointers.getD i 0 = i * M := by
    simp [hrp i (by omega)]
  have h2 : newA.rowPointers.getD (i + 1) 0 = (i + 1) * M := by
    simp [hrp (i + 1) (by omega)]
  have h3 : (i + 1) * M - i * M = M := by
    rw [Nat.add_mul, Nat.one_mul, Nat.add_sub_cancel_left]
  rw [h1, h2, h3, sum_range'_eq]
  apply Finset.sum_congr rfl
  intro j hj
  have hj' := Finset.mem_range.mp hj
  obtain ⟨c1, c2⟩ := hcv j hj'
  have e1 : newA.colIndices.getD (i * M + j) (-1) = (j : Int) := by simp [c1]
  have e2 : newA.values.getD (i * M + j) 0 = val j := by simp [c2]
  rw [e1, e2, hcm, getLocalElement_getGlobalElement newA.rowMap hnd j (by omega),
    Int.toNat_natCast]

/-- C14: on a single process, for an `M x M` operator `A` in CSR form and a single
nullspace vector `n` of non-zero norm, in exact arithmetic, the corrected operator `A'`
that the nullspace fix returns, and from which `Setup` creates the solver, satisfies
`(A' n)[i] = (A n)[i] + n[i]` for every row `i`; when `A n = 0`, `A' n = n`. -/
theorem rank_one_correction_mulVec {K H : Type} [Field K] (ext : Externals K H)
    (A : Matrix K) (Nullspace : MultiVector K) (n : List K)
    (hA : A.wellFormedCrs) (hS : A.singleProcessSquare)
    (hsize : A.rowMap.globalNumElements * A.rowMap.globalNumElements < SIZE_MOD)
    (hns : Nullspace.cols = [n]) (hlen : n.length = A.rowMap.globalNumElements)
    (hnorm : ext.norm2 n * ext.norm2 n = (n.map (fun x => x * ext.conjugate x)).sum)
    (hne : ext.norm2 n ≠ 0)
    (hdiv : ∀ a b : K, b ≠ 0 → ext.divide a b = a / b) :
    ∃ newA, (fixNullspace ext A Nullspace).2 = .ok newA ∧
      (∀ i, i < A.rowMap.globalNumElements →
        newA.mulVec n i = A.mulVec n i + n.getD i 0) ∧
      ((∀ i, i < A.rowMap.globalNumElements → A.mulVec n i = 0) →
        ∀ i, i < A.rowMap.globalNumElements → newA.mulVec n i = n.getD i 0) ∧
      (∀ (s : Amesos2Smoother K H) tA h p, s.paramList.fixNullspace = true →
        ext.Op2NonConstTpetraCrs newA = .ok tA → ext.create s.type_ tA = some h →
        amesos2Parameters ext A.rowMap h s.paramList = .ok p →
        (Setup ext s ⟨A, Nullspace⟩).error = none ∧
        (Setup ext s ⟨A, Nullspace⟩).smoother.prec_ = some (ext.setParameters h p)) := by
  obtain ⟨newA, hb, g1, g2, g3, g4⟩ :=
    fixNullspace_single_process_structure ext A Nullspace n hA hS hsize hns hlen
  obtain ⟨hcrs, hrp, hrp', hval, hci⟩ := hA
  obtain ⟨hcomm, hM, hnd, hsub⟩ := hS
  have hcol : ∀ jj, jj < A.colIndices.length →
      ∃ k : Nat, k < A.rowMap.globalNumElements ∧ localColumn A A.rowMap jj = (k : Int) := by
    intro jj hjj
    obtain ⟨k, hk, hloc, _⟩ := getLocalElement_of_mem A.rowMap _
      (hsub _ (getGlobalElement_mem A hci jj hjj))
    exact ⟨k, by omega, hloc⟩
  have hsq : ext.norm2 n * ext.norm2 n ≠ 0 := mul_ne_zero hne hne
  have hS0 : (n.map (fun x => x * ext.conjugate x)).sum ≠ 0 := by rw [← hnorm]; exact hsq
  have hnz : ext.divide 1 (ext.norm2 n * ext.norm2 n) =
      1 / (n.map (fun x => x * ext.conjugate x)).sum := by
    rw [hdiv _ _ hsq, hnorm]
  have key : ∀ i, i < A.rowMap.globalNumElements →
      newA.mulVec n i = A.mulVec n i + n.getD i 0 := by
    intro i hi
    have hhi : A.rowPointers.getD (i + 1) 0 ≤ A.colIndices.length := by
      apply hrp'
      rw [List.getD_eq_getElem _ 0 (by omega)]
      exact List.getElem_mem _
    rw [mulVec_dense newA n A.rowMap.globalNumElements i
      (fun c => formValue ext (ext.divide 1 (ext.norm2 n * ext.norm2 n)) n n i c +
        rowSum A A.rowMap i c)
      (by rw [g1]; exact hM.symm) (by rw [g1]; exact hnd) (by rw [g1, g2]) hi g3
      (fun c hc => g4 i c hi hc)]
    simp only [add_mul, Finset.sum_add_distrib]
    rw [sum_rowSum_mul A n A.rowMap.globalNumElements i hcol hhi, ← hlen,
      sum_formValue_mul ext _ n i, hnz, add_comm]
    congr 1
    field_simp
  refine ⟨newA, hb, key, ?_, ?_⟩
  · intro h0 i hi
    rw [key i hi, h0 i hi, zero_add]
  · intro s tA h p hfix h2 h3 h4
    obtain ⟨e1, e2⟩ :=
      Setup_of_fixNullspace_ok ext s ⟨A, Nullspace⟩ newA tA h p hfix hb h2 h3 h4
    exact ⟨e1, by rw [e2]⟩

theorem rank_one_correction_mulVec_witness :
    (singularA.wellFormedCrs ∧ singularA.singleProcessSquare ∧
      singularA.rowMap.globalNumElements * singularA.rowMap.globalNumElements < SIZE_MOD ∧
      exampleExt.norm2 [3, 4] * exampleExt.norm2 [3, 4] =
        (([3, 4] : List ℚ).map (fun x => x * exampleExt.conjugate x)).sum ∧
      exampleExt.norm2 [3, 4] ≠ 0) ∧
    ∃ newA, (fixNullspace exampleExt singularA ⟨2, [[3, 4]]⟩).2 = .ok newA ∧
      (∀ i, i < singularA.rowMap.globalNumElements →
        newA.mulVec [3, 4] i = singularA.mulVec [3, 4] i + ([3, 4] : List ℚ).getD i 0) ∧
      ((∀ i, i < singularA.rowMap.globalNumElements → singularA.mulVec [3, 4] i = 0) →
        ∀ i, i < singularA.rowMap.globalNumElements →
          newA.mulVec [3, 4] i = ([3, 4] : List ℚ).getD i 0) ∧
      (∀ (s : Amesos2Smoother ℚ (List Char × Matrix ℚ × Option Amesos2List)) tA h p,
        s.paramList.fixNullspace = true →
        exampleExt.Op2NonConstTpetraCrs newA = .ok tA → exampleExt.create s.type_ tA = some h →
        amesos2Parameters exampleExt singularA.rowMap h s.paramList = .ok p →
        (Setup exampleExt s ⟨singularA, ⟨2, [[3, 4]]⟩⟩).error = none ∧
        (Setup exampleExt s ⟨singularA, ⟨2, [[3, 4]]⟩⟩).smoother.prec_ =
          some (exampleExt.setParameters h p)) :=
  have hA : singularA.wellFormedCrs := by
    simp [Matrix.wellFormedCrs, singularA, exampleRowMap]
  have hS : singularA.singleProcessSquare := by
    simp [Matrix.singleProcessSquare, singularA, exampleRowMap]
  have hsize : singularA.rowMap.globalNumElements * singularA.rowMap.globalNumElements
      < SIZE_MOD := by
    norm_num [singularA, exampleRowMap, SIZE_MOD]
  have hnorm : exampleExt.norm2 [3, 4] * exampleExt.norm2 [3, 4] =
      (([3, 4] : List ℚ).map (fun x => x * exampleExt.conjugate x)).sum := by
    norm_num [exampleExt]
  have hne : exampleExt.norm2 [3, 4] ≠ 0 := by norm_num [exampleExt]
  ⟨⟨hA, hS, hsize, hnorm, hne⟩,
    rank_one_correction_mulVec exampleExt singularA ⟨2, [[3, 4]]⟩ [3, 4] hA hS hsize rfl rfl
      hnorm hne (fun _ _ _ => rfl)⟩

theorem construct_useTransformation (query : List Char → Bool) (cfg : Amesos2Config)
    (type : List Char) : (construct query cfg type).useTransformation_ = false := by
  unfold construct
  simp only
  split
  · split <;> rfl
  · rfl

/-- `Setup` writes `prec_` and the flag of `IsSetup()` only. -/
theorem Setup_frame {K H : Type} [Field K] (ext : Externals K H) (s : Amesos2Smoother K H)
    (lvl : Level K) :
    (Setup ext s lvl).smoother.useTransformation_ = s.useTransformation_ ∧
      (Setup ext s lvl).smoother.X_ = s.X_ ∧ (Setup ext s lvl).smoother.B_ = s.B_ ∧
      (Setup ext s lvl).smoother.type_ = s.type_ ∧
      (Setup ext s lvl).smoother.paramList = s.paramList := by
  unfold Setup
  simp only
  repeat' split
  all_goals exact ⟨rfl, rfl, rfl, rfl, rfl⟩

/-- `Apply` does not write the flag of the transformed layout. -/
theorem Apply_useTransformation {K H : Type} (ext : Externals K H) (s : Amesos2Smoother K H)
    (X B : MultiVector K) :
    (Apply ext s X B).smoother.useTransformation_ = s.useTransformation_ := by
  unfold Apply
  split
  · rfl
  · split
    · split <;> rfl
    · unfold applyTransformed
      simp only
      repeat' split
      all_goals rfl

/-- For `X` of more than one column the transformed path ends with the exception of line
268. -/
theorem applyTransformed_multi_column {K H : Type} (ext : Externals K H)
    (s : Amesos2Smoother K H) (X B : MultiVector K) (h : X.getNumVectors > 1) :
    (applyTransformed ext s X B).error = some (.RuntimeError multiVectorMessage) := by
  simp [applyTransformed, multiVectorMessage, h]

/-- `Apply` with the flag of the transformed layout not set: the exception, if any, is
that of line 257 or a null `prec_`, the smoother is left as it is, and a solve is on the
caller's vectors. -/
theorem Apply_not_transformed {K H : Type} (ext : Externals K H) (s : Amesos2Smoother K H)
    (X B : MultiVector K) (h : s.useTransformation_ = false) :
    (Apply ext s X B).smoother = s ∧
      (Apply ext s X B).error ≠ some (.RuntimeError multiVectorMessage) ∧
      (∀ e ∈ (Apply ext s X B).solves, e.2.1 = X ∧ e.2.2 = B) := by
  have hmsg : notSetupMessage ≠ multiVectorMessage := by decide
  unfold Apply
  rw [if_pos h]
  split
  · refine ⟨rfl, ?_, by simp⟩
    simp only [ne_eq, Option.some.injEq, Exception.RuntimeError.injEq]
    exact hmsg
  · cases hp : s.prec_ with
    | none => exact ⟨rfl, by simp, by simp⟩
    | some prec => exact ⟨rfl, by simp, by simp⟩

/-- In every state reachable from construction the flag of the transformed layout is not
set and the private vectors are null. -/
theorem Reachable_useTransformation {K H : Type} [Field K] (ext : Externals K H)
    (cfg : Amesos2Config) (s : Amesos2Smoother K H) (g : Bool) (h : Reachable ext cfg s g) :
    s.useTransformation_ = false ∧ s.X_ = none ∧ s.B_ = none := by
  induction h with
  | constructed type paramList =>
    exact ⟨construct_useTransformation ext.query cfg type, rfl, rfl⟩
  | setupSucceeded s g lvl _ _ ih =>
    obtain ⟨f1, f2, f3, _, _⟩ := Setup_frame ext s lvl
    exact ⟨f1.trans ih.1, f2.trans ih.2.1, f3.trans ih.2.2⟩
  | setupFailed s g lvl _ _ ih =>
    obtain ⟨f1, f2, f3, _, _⟩ := Setup_frame ext s lvl
    exact ⟨f1.trans ih.1, f2.trans ih.2.1, f3.trans ih.2.2⟩
  | applied s g X B _ ih =>
    rw [(Apply_not_transformed ext s X B ih.1).1]
    exact ih
  | copied s g _ ih => exact ih

/-- C15: the constructor leaves the flag of the transformed layout false, and `Setup`,
`Apply` and `Copy` leave it as it is; so in every state reachable from construction the
flag is false and the private vectors are null, and `Apply` takes the direct path: it
leaves the smoother, private vectors included, as it is, every solve is on the caller's
`X` and `B`, and the exception for more than one column is not raised. -/
theorem useTransformation_never_set {K H : Type} [Field K] (ext : Externals K H)
    (cfg : Amesos2Config) :
    (∀ query type, (construct query cfg type).useTransformation_ = false) ∧
    (∀ type paramList,
      (Amesos2Smoother.new ext cfg type paramList : Amesos2Smoother K H).useTransformation_
        = false) ∧
    (∀ (s : Amesos2Smoother K H) lvl,
      (Setup ext s lvl).smoother.useTransformation_ = s.useTransformation_) ∧
    (∀ (s : Amesos2Smoother K H) X B,
      (Apply ext s X B).smoother.useTransformation_ = s.useTransformation_) ∧
    (∀ s : Amesos2Smoother K H, (Copy s).useTransformation_ = s.useTransformation_) ∧
    (∀ (s : Amesos2Smoother K H) g, Reachable ext cfg s g →
      s.useTransformation_ = false ∧ s.X_ = none ∧ s.B_ = none ∧
      ∀ X B, (Apply ext s X B).smoother = s ∧
        (Apply ext s X B).error ≠ some (.RuntimeError multiVectorMessage) ∧
        (∀ e ∈ (Apply ext s X B).solves, e.2.1 = X ∧ e.2.2 = B) ∧
        (s.isSetup = true → ∀ prec, s.prec_ = some prec →
          (Apply ext s X B).error = none ∧ (Apply ext s X B).solves = [(prec, X, B)] ∧
          (Apply ext s X B).X = ext.solve prec X B)) := by
  refine ⟨fun query type => construct_useTransformation query cfg type,
    fun type paramList => construct_useTransformation ext.query cfg type,
    fun s lvl => (Setup_frame ext s lvl).1,
    fun s X B => Apply_useTransformation ext s X B, fun s => rfl, ?_⟩
  intro s g hr
  obtain ⟨h1, h2, h3⟩ := Reachable_useTransformation ext cfg s g hr
  refine ⟨h1, h2, h3, ?_⟩
  intro X B
  obtain ⟨a1, a2, a3⟩ := Apply_not_transformed ext s X B h1
  exact ⟨a1, a2, a3, fun hs prec hp => Apply_direct ext s X B prec hs h1 hp⟩

theorem useTransformation_never_set_witness :
    Reachable exampleExt kluOnly setUpSmoother true ∧
    (setUpSmoother.useTransformation_ = false ∧ setUpSmoother.X_ = none ∧
      setUpSmoother.B_ = none ∧
      ∀ X B, (Apply exampleExt setUpSmoother X B).smoother = setUpSmoother ∧
        (Apply exampleExt setUpSmoother X B).error ≠
          some (.RuntimeError multiVectorMessage) ∧
        (∀ e ∈ (Apply exampleExt setUpSmoother X B).solves, e.2.1 = X ∧ e.2.2 = B) ∧
        (setUpSmoother.isSetup = true → ∀ prec, setUpSmoother.prec_ = some prec →
          (Apply exampleExt setUpSmoother X B).error = none ∧
          (Apply exampleExt setUpSmoother X B).solves = [(prec, X, B)] ∧
          (Apply exampleExt setUpSmoother X B).X = exampleExt.solve prec X B)) :=
  have hr : Reachable exampleExt kluOnly setUpSmoother true :=
    Reachable.setupSucceeded _ false ⟨exampleA, ⟨2, [[3, 4]]⟩⟩
      (Reachable.constructed "klu".toList ⟨false, ⟨[], []⟩⟩) rfl
  ⟨hr, (useTransformation_never_set exampleExt kluOnly).2.2.2.2.2 setUpSmoother true hr⟩

theorem map_replace_filter {α : Type} (l : List (List Char × α)) (name : List Char) (x : α) :
    (l.map (fun e => if e.1 == name then (name, x) else e)).filter (fun e => e.1 != name) =
      l.filter (fun e => e.1 != name) := by
  induction l with
  | nil => rfl
  | cons a l ih =>
    simp only [List.map_cons, List.filter_cons]
    cases h : (a.1 == name) with
    | true =>
      have h1 : ((name, x).1 != name) = false := by simp
      have h2 : (a.1 != name) = false := by simp [bne, h]
      simp only [if_true, h1, h2, Bool.false_eq_true, if_false]
      exact ih
    | false =>
      have h2 : (a.1 != name) = true := by simp [bne, h]
      simp only [Bool.false_eq_true, if_false, h2, if_true]
      rw [ih]

theorem map_replace_find {α : Type} (l : List (List Char × α)) (name : List Char) (x : α)
    (h : l.any (fun e => e.1 == name) = true) :
    (l.map (fun e => if e.1 == name then (name, x) else e)).find? (fun e => e.1 == name) =
      some (name, x) := by
  induction l with
  | nil => simp at h
  | cons a l ih =>
    simp only [List.map_cons, List.find?_cons]
    cases ha : (a.1 == name) with
    | true =>
      have h1 : ((name, x).1 == name) = true := by simp
      simp only [if_true, h1]
    | false =>
      simp only [List.any_cons, ha, Bool.false_or] at h
      simp only [Bool.false_eq_true, if_false, ha]
      exact ih h

theorem lookupValue_setValue (l : List (List Char × ParameterValue)) (name : List Char)
    (v : ParameterValue) : lookupValue (setValue l name v) name = some v := by
  unfold lookupValue setValue
  by_cases h : l.any (fun e => e.1 == name) = true
  · rw [if_pos h, map_replace_find l name v h]
    rfl
  · rw [if_neg h]
    have hn : l.find? (fun e => e.1 == name) = none := by
      rw [List.find?_eq_none]
      intro e he hb
      exact h (List.any_eq_true.mpr ⟨e, he, hb⟩)
    simp [List.find?_append, hn]

theorem setValue_filter (l : List (List Char × ParameterValue)) (name : List Char)
    (v : ParameterValue) :
    (setValue l name v).filter (fun e => e.1 != name) = l.filter (fun e => e.1 != name) := by
  unfold setValue
  by_cases h : l.any (fun e => e.1 == name) = true
  · rw [if_pos h, map_replace_filter]
  · rw [if_neg h]
    simp [List.filter_append]

theorem isTypeBool_iff (l : List (List Char × ParameterValue)) (name : List Char) :
    isTypeBool l name = true ↔ ∃ b, lookupValue l name = some (.bool b) := by
  unfold isTypeBool lookupValue
  cases h : l.find? (fun e => e.1 == name) with
  | none => simp
  | some e =>
    obtain ⟨n, v⟩ := e
    cases v <;> simp

theorem map_replace_of_find_none {α : Type} (l : List (List Char × α)) (name : List Char)
    (x : α) (h : l.find? (fun e => e.1 == name) = none) :
    l.map (fun e => if e.1 == name then (name, x) else e) = l := by
  rw [List.find?_eq_none] at h
  conv_rhs => rw [← List.map_id l]
  apply List.map_congr_left
  intro e he
  have := h e he
  simp only [Bool.not_eq_true] at this
  simp [this]

/-- The list handed to `setParameters` when the global indices are not contiguous and the
"Amesos2" list of the user has a sublist `l` named after the solver. -/
theorem amesos2Parameters_sublist {K H : Type} (ext : Externals K H) (rowMap : Map)
    (prec : H) (pL : ParameterList) (l : List (List Char × ParameterValue))
    (hc : ¬ rowMap.contiguous)
    (hl : pL.Amesos2.lookup (ext.solverName prec) = some (.list l)) :
    amesos2Parameters ext rowMap prec pL =
      if isTypeBool l "IsContiguous".toList then
        .ok { pL.Amesos2 with name := "Amesos2".toList }
      else
        .ok { name := "Amesos2".toList,
              entries := pL.Amesos2.entries.map (fun e =>
                if e.1 == ext.solverName prec then
                  (ext.solverName prec,
                    .list (setValue l "IsContiguous".toList (.bool false)))
                else e) } := by
  unfold Map.contiguous at hc
  unfold Amesos2List.lookup at hl
  cases hf : pL.Amesos2.entries.find? (fun e => e.1 == ext.solverName prec) with
  | none => simp [hf] at hl
  | some e =>
    obtain ⟨n, v⟩ := e
    simp only [hf, Option.map_some', Option.some.injEq] at hl
    subst hl
    simp only [amesos2Parameters, ne_eq, hc, not_false_eq_true, if_true, Amesos2List.sublist, hf]
    cases isTypeBool l "IsContiguous".toList <;> simp [Amesos2List.putSublist]

/-- The list handed to `setParameters` when the global indices are not contiguous and the
"Amesos2" list of the user has no entry named after the solver. -/
theorem amesos2Parameters_no_sublist {K H : Type} (ext : Externals K H) (rowMap : Map)
    (prec : H) (pL : ParameterList) (hc : ¬ rowMap.contiguous)
    (hl : pL.Amesos2.lookup (ext.solverName prec) = none) :
    amesos2Parameters ext rowMap prec pL =
      .ok { name := "Amesos2".toList,
            entries := pL.Amesos2.entries ++
              [(ext.solverName prec, .list [("IsContiguous".toList, .bool false)])] } := by
  unfold Map.contiguous at hc
  unfold Amesos2List.lookup at hl
  have hf : pL.Amesos2.entries.find? (fun e => e.1 == ext.solverName prec) = none := by
    cases h : pL.Amesos2.entries.find? (fun e => e.1 == ext.solverName prec) with
    | none => rfl
    | some e => simp [h] at hl
  have hb : isTypeBool [] "IsContiguous".toList = false := rfl
  simp only [amesos2Parameters, ne_eq, hc, not_false_eq_true, if_true, Amesos2List.sublist, hf,
    hb, Bool.not_false, Amesos2List.putSublist, List.map_append,
    map_replace_of_find_none _ _ _ hf]
  simp [setValue]

/-- C16: the list handed to `setParameters` is the "Amesos2" list of the user, named
"Amesos2". When the global indices of the row map are contiguous it has the entries of the
user. When they are not: with a boolean "IsContiguous" of the user in the sublist named
after the solver, it has the entries of the user; with such a sublist without a boolean
"IsContiguous", the sublist gets "IsContiguous" = false, its other parameters and the
other entries of the list are those of the user; without an entry named after the solver,
a sublist with "IsContiguous" = false alone is appended. A call of `Setup` that ends
without exception has handed this list to the solver it created. -/
theorem amesos2Parameters_IsContiguous {K H : Type} [Field K] (ext : Externals K H)
    (rowMap : Map) (prec : H) (pL : ParameterList) :
    (rowMap.contiguous →
      amesos2Parameters ext rowMap prec pL =
        .ok { pL.Amesos2 with name := "Amesos2".toList }) ∧
    (¬ rowMap.contiguous → ∀ l b,
      pL.Amesos2.lookup (ext.solverName prec) = some (.list l) →
      lookupValue l "IsContiguous".toList = some (.bool b) →
      amesos2Parameters ext rowMap prec pL =
        .ok { pL.Amesos2 with name := "Amesos2".toList }) ∧
    (¬ rowMap.contiguous → ∀ l,
      pL.Amesos2.lookup (ext.solverName prec) = some (.list l) →
      (∀ b, lookupValue l "IsContiguous".toList ≠ some (.bool b)) →
      ∃ p l', amesos2Parameters ext rowMap prec pL = .ok p ∧
        p.name = "Amesos2".toList ∧
        p.entries.length = pL.Amesos2.entries.length ∧
        p.entries.filter (fun e => e.1 != ext.solverName prec) =
          pL.Amesos2.entries.filter (fun e => e.1 != ext.solverName prec) ∧
        p.lookup (ext.solverName prec) = some (.list l') ∧
        lookupValue l' "IsContiguous".toList = some (.bool false) ∧
        l'.filter (fun e => e.1 != "IsContiguous".toList) =
          l.filter (fun e => e.1 != "IsContiguous".toList)) ∧
    (¬ rowMap.contiguous → pL.Amesos2.lookup (ext.solverName prec) = none →
      amesos2Parameters ext rowMap prec pL =
        .ok { name := "Amesos2".toList,
              entries := pL.Amesos2.entries ++
                [(ext.solverName prec, .list [("IsContiguous".toList, .bool false)])] }) ∧
    (∀ (s : Amesos2Smoother K H) lvl, (Setup ext s lvl).error = none →
      ∃ tA h p, tpetraOperator ext s.paramList lvl = .ok tA ∧
        ext.create s.type_ tA = some h ∧
        amesos2Parameters ext lvl.A.rowMap h s.paramList = .ok p ∧
        (Setup ext s lvl).smoother.prec_ = some (ext.setParameters h p)) := by
  refine ⟨fun hc => amesos2Parameters_contiguous ext rowMap prec pL hc, ?_, ?_,
    fun hc hl => amesos2Parameters_no_sublist ext rowMap prec pL hc hl, ?_⟩
  · intro hc l b hl hb
    have ht : isTypeBool l "IsContiguous".toList = true := (isTypeBool_iff l _).mpr ⟨b, hb⟩
    rw [amesos2Parameters_sublist ext rowMap prec pL l hc hl, if_pos ht]
  · intro hc l hl hb
    have ht : ¬ isTypeBool l "IsContiguous".toList = true := by
      intro h
      obtain ⟨b, hb'⟩ := (isTypeBool_iff l _).mp h
      exact hb b hb'
    have hany : pL.Amesos2.entries.any (fun e => e.1 == ext.solverName prec) = true := by
      unfold Amesos2List.lookup at hl
      cases hf : pL.Amesos2.entries.find? (fun e => e.1 == ext.solverName prec) with
      | none => simp [hf] at hl
      | some e =>
        exact List.any_eq_true.mpr
          ⟨e, List.mem_of_find?_eq_some hf,
            @List.find?_some _ (fun e => e.1 == ext.solverName prec) e _ hf⟩
    refine ⟨{ name := "Amesos2".toList,
              entries := pL.Amesos2.entries.map (fun e =>
                if e.1 == ext.solverName prec then
                  (ext.solverName prec,
                    .list (setValue l "IsContiguous".toList (.bool false)))
                else e) },
      setValue l "IsContiguous".toList (.bool false), ?_, rfl, ?_, ?_, ?_,
      lookupValue_setValue l _ _, setValue_filter l _ _⟩
    · rw [amesos2Parameters_sublist ext rowMap prec pL l hc hl, if_neg ht]
    · simp
    · exact map_replace_filter _ _ _
    · unfold Amesos2List.lookup
      simp only
      rw [map_replace_find _ _ _ hany]
      rfl
  · intro s lvl h
    obtain ⟨tA, prec, p, a1, a2, a3, a4, _⟩ := Setup_error_none ext s lvl h
    exact ⟨tA, prec, p, a1, a2, a3, by rw [a4]⟩

theorem amesos2Parameters_IsContiguous_witness :
    (¬ gapRowMap.contiguous ∧
      kluParameters.Amesos2.lookup (exampleExt.solverName ("Klu".toList, exampleA, none)) =
        some (.list [("Trans".toList, .string "NOTRANS".toList)]) ∧
      (∀ b, lookupValue [("Trans".toList, .string "NOTRANS".toList)] "IsContiguous".toList ≠
        some (.bool b))) ∧
    ∃ p l', amesos2Parameters exampleExt gapRowMap ("Klu".toList, exampleA, none)
          kluParameters = .ok p ∧
      p.name = "Amesos2".toList ∧
      p.entries.length = kluParameters.Amesos2.entries.length ∧
      p.entries.filter
          (fun e => e.1 != exampleExt.solverName ("Klu".toList, exampleA, none)) =
        kluParameters.Amesos2.entries.filter
          (fun e => e.1 != exampleExt.solverName ("Klu".toList, exampleA, none)) ∧
      p.lookup (exampleExt.solverName ("Klu".toList, exampleA, none)) = some (.list l') ∧
      lookupValue l' "IsContiguous".toList = some (.bool false) ∧
      l'.filter (fun e => e.1 != "IsContiguous".toList) =
        [("Trans".toList, ParameterValue.string "NOTRANS".toList)].filter
          (fun e => e.1 != "IsContiguous".toList) :=
  have h1 : ¬ gapRowMap.contiguous := by
    unfold Map.contiguous
    decide
  have h2 : kluParameters.Amesos2.lookup
      (exampleExt.solverName ("Klu".toList, exampleA, none)) =
      some (.list [("Trans".toList, .string "NOTRANS".toList)]) := rfl
  have h3 : ∀ b, lookupValue [("Trans".toList, .string "NOTRANS".toList)]
      "IsContiguous".toList ≠ some (.bool b) := by
    intro b h
    have h' : lookupValue [("Trans".toList, ParameterValue.string "NOTRANS".toList)]
        "IsContiguous".toList = none := by decide
    rw [h'] at h
    exact Option.noConfusion h
  ⟨⟨h1, h2, h3⟩,
    (amesos2Parameters_IsContiguous exampleExt gapRowMap ("Klu".toList, exampleA, none)
      kluParameters).2.2.1 h1 _ h2 h3⟩

/-- A call of `Setup` that reaches line 242 leaves in `prec_` null, when `create` returns
null, or the object `create` returned, with or without its parameters set. -/
theorem Setup_prec_of_tpetraOperator_ok {K H : Type} [Field K] (ext : Externals K H)
    (s : Amesos2Smoother K H) (lvl : Level K) (tA : Matrix K)
    (h : tpetraOperator ext s.paramList lvl = .ok tA) :
    (ext.create s.type_ tA = none ∧ (Setup ext s lvl).smoother.prec_ = none) ∨
    (∃ prec, ext.create s.type_ tA = some prec ∧
      ((Setup ext s lvl).smoother.prec_ = some prec ∨
        ∃ p, (Setup ext s lvl).smoother.prec_ = some (ext.setParameters prec p))) := by
  unfold tpetraOperator at h
  unfold Setup
  cases hfix : s.paramList.fixNullspace
  · simp only [hfix, Bool.false_eq_true, if_false] at h ⊢
    simp only [h]
    cases hc : ext.create s.type_ tA with
    | none => exact Or.inl ⟨rfl, rfl⟩
    | some prec =>
      refine Or.inr ⟨prec, rfl, ?_⟩
      dsimp only
      cases hp : amesos2Parameters ext lvl.A.rowMap prec s.paramList with
      | error e => exact Or.inl rfl
      | ok p => exact Or.inr ⟨p, rfl⟩
  · simp only [hfix, if_true] at h ⊢
    cases h0 : (fixNullspace ext lvl.A lvl.Nullspace).2 with
    | error e0 => simp [h0] at h
    | ok factorA =>
      simp only [h0] at h ⊢
      simp only [h]
      cases hc : ext.create s.type_ tA with
      | none => exact Or.inl ⟨rfl, rfl⟩
      | some prec =>
        refine Or.inr ⟨prec, rfl, ?_⟩
        dsimp only
        cases hp : amesos2Parameters ext lvl.A.rowMap prec s.paramList with
        | error e => exact Or.inl rfl
        | ok p => exact Or.inr ⟨p, rfl⟩

/-- C12, as the code has it: `Copy` is the member-wise copy. The copy has the backend
type, the parameters, the flags, the private vectors and the solver handle of the
original, so it shares a solver object with the original exactly when the original holds
one, which a smoother as constructed does not. With a backend whose `create` returns a new
object, a call of `Setup` on the copy that ends before line 242 leaves the copy as it is,
and a call that reaches line 242 puts the new object, or null, into the handle of the
copy, whether or not it then ends without exception: after a call of `Setup` the copy
shares the solver object of the original exactly when the original holds one and the call
ended before line 242. A call that ends without exception leaves the new object, with
the backend type and the parameters of the original, in the copy. -/
theorem Copy_memberwise {K H : Type} [Field K] (ext : Externals K H) (cfg : Amesos2Config)
    (ident : H → Nat) :
    (∀ s : Amesos2Smoother K H, (Copy s).type_ = s.type_ ∧ (Copy s).paramList = s.paramList ∧
      (Copy s).prec_ = s.prec_ ∧ (Copy s).X_ = s.X_ ∧ (Copy s).B_ = s.B_ ∧
      (Copy s).isSetup = s.isSetup ∧ (Copy s).useTransformation_ = s.useTransformation_) ∧
    (∀ s : Amesos2Smoother K H, sharesSolver ident s (Copy s) ↔ s.prec_ ≠ none) ∧
    (∀ type paramList,
      ¬ sharesSolver ident (Amesos2Smoother.new ext cfg type paramList : Amesos2Smoother K H)
        (Copy (Amesos2Smoother.new ext cfg type paramList))) ∧
    (∀ (s : Amesos2Smoother K H) lvl k, createsNew ext ident k →
      (∀ h, s.prec_ = some h → ident h < k) →
      (∀ e, tpetraOperator ext s.paramList lvl = .error e →
        (Setup ext (Copy s) lvl).smoother = Copy s) ∧
      (sharesSolver ident s (Setup ext (Copy s) lvl).smoother ↔
        (s.prec_ ≠ none ∧ ∃ e, tpetraOperator ext s.paramList lvl = .error e)) ∧
      ((Setup ext (Copy s) lvl).error = none →
        ∃ tA prec p, tpetraOperator ext s.paramList lvl = .ok tA ∧
          ext.create s.type_ tA = some prec ∧
          amesos2Parameters ext lvl.A.rowMap prec s.paramList = .ok p ∧
          (Setup ext (Copy s) lvl).smoother.prec_ = some (ext.setParameters prec p) ∧
          ident (ext.setParameters prec p) = k)) := by
  have hcopy : ∀ s : Amesos2Smoother K H, sharesSolver ident s (Copy s) ↔ s.prec_ ≠ none := by
    intro s
    cases hp : s.prec_ with
    | none => simp [sharesSolver, hp]
    | some h => simp [sharesSolver, Copy, hp]
  refine ⟨fun s => ⟨rfl, rfl, rfl, rfl, rfl, rfl, rfl⟩, hcopy, ?_, ?_⟩
  · intro type paramList
    simp [sharesSolver, Amesos2Smoother.new]
  · intro s lvl k hnew hold
    have herr : ∀ e, tpetraOperator ext s.paramList lvl = .error e →
        (Setup ext (Copy s) lvl).smoother = Copy s :=
      fun e he => (Setup_tpetraOperator_error ext (Copy s) lvl e he).1
    refine ⟨herr, ?_, ?_⟩
    · cases ht : tpetraOperator ext s.paramList lvl with
      | error e =>
        rw [herr e ht, hcopy s]
        simp
      | ok tA =>
        have hfresh : ∀ h', (Setup ext (Copy s) lvl).smoother.prec_ = some h' → ident h' = k := by
          intro h' hh
          rcases Setup_prec_of_tpetraOperator_ok ext (Copy s) lvl tA ht with
            ⟨_, hn⟩ | ⟨prec, hc, hp | ⟨p, hp⟩⟩
          · rw [hn] at hh; exact Option.noConfusion hh
          · rw [hp] at hh
            simp only [Option.some.injEq] at hh
            rw [← hh]; exact hnew.1 _ _ _ hc
          · rw [hp] at hh
            simp only [Option.some.injEq] at hh
            rw [← hh, hnew.2]; exact hnew.1 _ _ _ hc
        constructor
        · rintro ⟨h, h', h1, h2, h3⟩
          have := hold h h1
          have := hfresh h' h2
          omega
        · rintro ⟨_, e, he⟩
          exact Except.noConfusion he
    · intro h
      obtain ⟨tA, prec, p, a1, a2, a3, a4, _⟩ := Setup_error_none ext (Copy s) lvl h
      refine ⟨tA, prec, p, a1, a2, a3, by rw [a4], ?_⟩
      rw [hnew.2]
      exact hnew.1 _ _ _ a2

theorem Copy_memberwise_witness :
    (createsNew (allocExt 1) solverIdent 1 ∧
      ∀ h, (allocSetUp 0).prec_ = some h → solverIdent h < 1) ∧
    (sharesSolver solverIdent (allocSetUp 0)
        (Setup (allocExt 1) (Copy (allocSetUp 0)) ⟨exampleA, ⟨2, [[3, 4]]⟩⟩).smoother ↔
      ((allocSetUp 0).prec_ ≠ none ∧
        ∃ e, tpetraOperator (allocExt 1) (allocSetUp 0).paramList
          ⟨exampleA, ⟨2, [[3, 4]]⟩⟩ = .error e)) :=
  have hnew : createsNew (allocExt 1) solverIdent 1 :=
    ⟨fun _ _ h hc => by
      simp only [allocExt, Option.some.injEq] at hc
      rw [← hc]; rfl,
     fun _ _ => rfl⟩
  have hold : ∀ h, (allocSetUp 0).prec_ = some h → solverIdent h < 1 := by
    intro h hh
    have h0 : (allocSetUp 0).prec_ =
        some (0, "Klu".toList, exampleA, some ⟨"Amesos2".toList, []⟩) := rfl
    rw [h0] at hh
    simp only [Option.some.injEq] at hh
    rw [← hh]
    decide
  ⟨⟨hnew, hold⟩,
    ((Copy_memberwise (allocExt 1) kluOnly solverIdent).2.2.2 (allocSetUp 0)
      ⟨exampleA, ⟨2, [[3, 4]]⟩⟩ 1 hnew hold).2.1⟩

/-- C12, counterexample: `allocSetUp 0` is a smoother on which `Setup` has succeeded, with
the solver object number 0. Its copy, on which `Setup` has not been called, holds that
same object, where a smoother set up on its own on the same operator holds another. -/
theorem Copy_shares_solver_counterexample :
    (allocSetUp 0).isSetup = true ∧
    (Copy (allocSetUp 0)).prec_ = (allocSetUp 0).prec_ ∧
    sharesSolver solverIdent (allocSetUp 0) (Copy (allocSetUp 0)) ∧
    ¬ sharesSolver solverIdent (allocSetUp 0) (allocSetUp 1) ∧
    ¬ (∀ s : Amesos2Smoother ℚ (Nat × List Char × Matrix ℚ × Option Amesos2List),
      ¬ sharesSolver solverIdent s (Copy s)) := by
  have h0 : (allocSetUp 0).prec_ =
      some (0, "Klu".toList, exampleA, some ⟨"Amesos2".toList, []⟩) := rfl
  have h1 : (allocSetUp 1).prec_ =
      some (1, "Klu".toList, exampleA, some ⟨"Amesos2".toList, []⟩) := rfl
  have hs : sharesSolver solverIdent (allocSetUp 0) (Copy (allocSetUp 0)) :=
    ⟨_, _, h0, h0, rfl⟩
  refine ⟨rfl, rfl, hs, ?_, fun h => h (allocSetUp 0) hs⟩
  rintro ⟨h, h', e1, e2, e3⟩
  rw [h0] at e1
  rw [h1] at e2
  simp only [Option.some.injEq] at e1 e2
  rw [← e1, ← e2] at e3
  exact absurd e3 (by decide)

end MueLu
